import Mathlib

/-
Verification of the serenada signaling server (src/server) against its
specification. The development shallowly embeds the Go code of
src/server/room_id.go (room-ID cryptography and the signaling hub) in Lean:

* Bytes are `Nat` (with explicit `< 256` bounds where byte-ness matters).
* Go maps become functions into `Option` (registry maps) or association
  lists (a room's `Participants` map, whose iteration order the model fixes
  as list order; Go's map iteration order is unspecified).
* Client identities: Go identifies sessions by `*Client` pointer and mints
  cid strings "C-<16 hex chars>" with `generateID`. The model keys sessions
  by `Nat` and mints cids from a counter `nextCid` (the spec treats
  collisions of the 64-bit random ids as impossible, so a fresh-counter
  model is faithful). The empty cid string "" is modelled as `none`.
* The cryptographic primitive HMAC-SHA-256 from the Go standard library is
  an abstract parameter `mac : MacFn`; the repository's own logic (token
  layout, base64, truncation, comparison) is embedded concretely.
* Handlers return the new hub state together with the list of messages they
  emit (each emission is one `sendMessage` call in the source; `sendMessage`
  itself, i.e. the bounded non-blocking enqueue onto the per-session
  channel of capacity 256, is modelled separately by `Sig.sendMessage`).
* `handleRelay` can hit a genuine panic in the source: `json.Unmarshal` of
  the JSON value `null` into a `map[string]interface{}` sets the map to nil
  and returns no error, and the following `rawPayload["from"] = c.cid`
  is an assignment to a nil map, which panics. The model returns `none`
  (abnormal termination, nothing emitted) for this case.
-/

namespace Sig

/-! ## JSON values (for relay payloads) -/

inductive Jval where
  | jnull : Jval
  | jbool : Bool → Jval
  | jnum : Int → Jval
  | jstr : String → Jval
  | jarr : List Jval → Jval
  | jobj : List (String × Jval) → Jval

/-- A message payload as the hub sees it: absent (`missing`), bytes that are
not valid JSON (`bad`), or a parsed JSON value. -/
inductive RPayload where
  | missing : RPayload
  | bad : RPayload
  | val : Jval → RPayload

/-- Lookup of a field in a JSON object (first occurrence). -/
def jlookup (k : String) : List (String × Jval) → Option Jval
  | [] => none
  | p :: rest => if p.1 = k then some p.2 else jlookup k rest

/-- Go map assignment `m[k] = v`: replace the binding if the key is present,
otherwise add it. -/
def jset (fs : List (String × Jval)) (k : String) (v : Jval) : List (String × Jval) :=
  if fs.any (fun p => decide (p.1 = k)) then
    fs.map (fun p => if p.1 = k then (k, v) else p)
  else fs ++ [(k, v)]

/-- The `json.Unmarshal(msg.Payload, &rawPayload)` step of `handleRelay`
(src/server/room_id.go:558-562): a JSON object yields its fields; every
non-object value and every unmarshal error yields the fresh empty map made
in the error branch — except JSON `null`, which unmarshals `rawPayload` to
a nil map with no error, so the subsequent `rawPayload["from"] = c.cid`
panics (modelled as `none`). -/
def relayObj : RPayload → Option (List (String × Jval))
  | .val (.jobj fs) => some fs
  | .val .jnull => none
  | _ => some []

/-! ## URL-safe base64 without padding (Go `base64.RawURLEncoding`) -/

/-- Character of a 6-bit value in the URL-safe base64 alphabet. -/
def b64Char (n : Nat) : Char :=
  if n < 26 then Char.ofNat (65 + n)
  else if n < 52 then Char.ofNat (97 + (n - 26))
  else if n < 62 then Char.ofNat (48 + (n - 52))
  else if n = 62 then '-' else '_'

/-- 6-bit value of a character; `none` for characters outside the URL-safe
base64 alphabet. -/
def b64Val (c : Char) : Option Nat :=
  if 'A' ≤ c ∧ c ≤ 'Z' then some (c.toNat - 65)
  else if 'a' ≤ c ∧ c ≤ 'z' then some (c.toNat - 97 + 26)
  else if '0' ≤ c ∧ c ≤ '9' then some (c.toNat - 48 + 52)
  else if c = '-' then some 62
  else if c = '_' then some 63
  else none

/-- Unpadded base64 encoding of a byte list (bytes as `Nat < 256`),
three bytes to four characters, with the 1- and 2-byte tails of
`RawURLEncoding`. Shifts are written with `/ %` arithmetic. -/
def b64EncodeBytes : List Nat → List Char
  | [] => []
  | [b0] => [b64Char (b0 / 4), b64Char (b0 % 4 * 16)]
  | [b0, b1] => [b64Char (b0 / 4), b64Char (b0 % 4 * 16 + b1 / 16), b64Char (b1 % 16 * 4)]
  | b0 :: b1 :: b2 :: rest =>
      b64Char (b0 / 4) :: b64Char (b0 % 4 * 16 + b1 / 16) ::
        b64Char (b1 % 16 * 4 + b2 / 64) :: b64Char (b2 % 64) :: b64EncodeBytes rest

/-- Map every character to its 6-bit value; fail on the first bad one. -/
def b64Vals : List Char → Option (List Nat)
  | [] => some []
  | c :: cs =>
    match b64Val c, b64Vals cs with
    | some v, some vs => some (v :: vs)
    | _, _ => none

/-- Reassemble bytes from 6-bit values. A tail of one value is a decoding
error (as in Go); tails of two or three values decode to one or two bytes
(Go's default decoder discards the unused trailing bits). -/
def b64DecodeVals : List Nat → Option (List Nat)
  | [] => some []
  | [_] => none
  | [v0, v1] => some [v0 * 4 + v1 / 16]
  | [v0, v1, v2] => some [v0 * 4 + v1 / 16, v1 % 16 * 16 + v2 / 4]
  | v0 :: v1 :: v2 :: v3 :: rest =>
      (b64DecodeVals rest).map
        (fun bs => (v0 * 4 + v1 / 16) :: (v1 % 16 * 16 + v2 / 4) :: (v2 % 4 * 64 + v3) :: bs)

/-- `base64.RawURLEncoding.DecodeString` on a character list. -/
def b64Decode (s : List Char) : Option (List Nat) :=
  match b64Vals s with
  | none => none
  | some vs => b64DecodeVals vs

/-! ## Room-ID generation and validation (src/server/room_id.go:42-99) -/

/-- The HMAC-SHA-256 primitive of the Go standard library, abstracted:
`mac key message` is the 32-byte tag. -/
abbrev MacFn := List Nat → List Nat → List Nat

def roomIDRandomBytes : Nat := 12
def roomIDTagBytes : Nat := 8
def roomIDTotalBytes : Nat := roomIDRandomBytes + roomIDTagBytes
def roomIDEncodedBytes : Nat := 27

/-- The distinct error values of `validateRoomID` / `generateRoomID`:
"missing room id", "room id must be a 27-character token",
`ErrRoomIDSecretMissing`, and "room id is invalid" (used alike for decode
failures, wrong decoded length, and MAC mismatch). -/
inductive RoomIDErr where
  | missingRoomID : RoomIDErr
  | badLength : RoomIDErr
  | secretMissing : RoomIDErr
  | invalidRoomID : RoomIDErr
deriving DecidableEq, Repr

/-- `generateRoomID` (src/server/room_id.go:42-63): requires the configured
secret (Go: `ROOM_ID_SECRET` non-empty, else `ErrRoomIDSecretMissing`),
takes 12 random bytes from the system RNG (here: the `random` argument),
appends the first 8 bytes of `mac secret (random ++ ctx)` — `ctx` is the
byte string of `roomIDContext()` — and base64url-encodes the 20 bytes. -/
def generateRoomID (mac : MacFn) (secret ctx random : List Nat) : Except RoomIDErr String :=
  if secret = [] then .error .secretMissing
  else
    let tag := (mac secret (random ++ ctx)).take roomIDTagBytes
    .ok (String.mk (b64EncodeBytes (random ++ tag)))

/-- `validateRoomID` (src/server/room_id.go:65-99), with the source's check
order: empty, length 27, secret configured, base64 decode, decoded
length 20, tag comparison (`hmac.Equal` is byte-list equality). -/
def validateRoomID (mac : MacFn) (secret ctx : List Nat) (roomID : String) :
    Except RoomIDErr Unit :=
  if roomID = "" then .error .missingRoomID
  else if roomID.length ≠ roomIDEncodedBytes then .error .badLength
  else if secret = [] then .error .secretMissing
  else
    match b64Decode roomID.data with
    | none => .error .invalidRoomID
    | some raw =>
      if raw.length ≠ roomIDTotalBytes then .error .invalidRoomID
      else
        let random := raw.take roomIDRandomBytes
        let tag := raw.drop roomIDRandomBytes
        let expected := (mac secret (random ++ ctx)).take roomIDTagBytes
        if tag = expected then .ok () else .error .invalidRoomID

/-- The three-way outcome of room-ID validation as the hub consumes it:
`handleJoin` maps `ErrRoomIDSecretMissing` to `SERVER_NOT_CONFIGURED` and
every other error to `INVALID_ROOM_ID`; `handleWatchRooms` skips a rid on
any error. -/
inductive RidCheck where
  | ok : RidCheck
  | notConfigured : RidCheck
  | invalidRid : RidCheck
deriving DecidableEq, Repr

def ridCheck (mac : MacFn) (secret ctx : List Nat) (s : String) : RidCheck :=
  match validateRoomID mac secret ctx s with
  | .ok _ => .ok
  | .error .secretMissing => .notConfigured
  | .error _ => .invalidRid

/-! ## Hub data model (src/server/room_id.go:122-171)

`Hub.rooms` and `Hub.watchers` are the registry maps (watchers with the
empty list standing for an absent entry, which the source keeps equivalent
by deleting emptied watcher sets). `Hub.clients` maps a session key to the
client record; a key mapped to `none` is not registered. `nextCid` is the
cid-minting counter standing in for `generateID("C-")`. -/

/-- The mutable per-client fields the hub reads and writes: `cid` (Go ""
⟷ `none`) and `rid` (Go "" for "no current room"). -/
structure ClientSt where
  cid : Option Nat
  rid : String
deriving DecidableEq, Repr

/-- A room: the `Participants` map as an association list session-key →
cid, and `HostCID` (Go "" ⟷ `none`). -/
structure Room where
  participants : List (Nat × Nat)
  hostCID : Option Nat
deriving DecidableEq, Repr

structure Hub where
  rooms : String → Option Room
  watchers : String → List Nat
  clients : Nat → Option ClientSt
  nextCid : Nat

/-- The empty hub (`newHub`, src/server/room_id.go:164-171). -/
def hub0 : Hub where
  rooms := fun _ => none
  watchers := fun _ => []
  clients := fun _ => none
  nextCid := 0

/-- Relayed message kinds ("offer" | "answer" | "ice"). -/
inductive RelayKind where
  | offer : RelayKind
  | answer : RelayKind
  | ice : RelayKind
deriving DecidableEq, Repr

/-- The cid string of a modelled cid, as it appears inside payloads. -/
def cidName (k : Nat) : String := "C-" ++ toString k

/-- Go's `c.cid` string for a modelled client cid field. -/
def optCidStr : Option Nat → String
  | some k => cidName k
  | none => ""

/-- The server→client messages the hub emits, with the payload fields the
source puts in them (timestamps and TURN tokens, which come from the clock
and the token store, are not modelled). -/
inductive OutMsg where
  | errorMsg : String → String → OutMsg
  | joined : String → Nat → Option Nat → List Nat → OutMsg
  | roomState : String → Option Nat → List Nat → OutMsg
  | roomEnded : String → Option Nat → String → OutMsg
  | relayed : RelayKind → String → List (String × Jval) → OutMsg
  | roomStatuses : List (String × Nat) → OutMsg
  | roomStatusUpdate : String → Nat → OutMsg

/-- One emission: recipient session key and message. -/
abbrev Send := Nat × OutMsg

/-! ### Map and association-list operations -/

/-- Pointwise update of a registry map. -/
def mupd {α : Type} (f : String → Option α) (k : String) (v : Option α) :
    String → Option α :=
  fun x => if x = k then v else f x

/-- Write the fields of client `k` if it exists (a Go field write through a
pointer is invisible to the hub when the object is not registered). -/
def clientUpd (f : Nat → Option ClientSt) (k : Nat) (v : ClientSt) :
    Nat → Option ClientSt :=
  fun x => if x = k then (f x).map (fun _ => v) else f x

/-- Go `delete(room.Participants, c)`. -/
def pdel (k : Nat) (l : List (Nat × Nat)) : List (Nat × Nat) :=
  l.filter (fun p => decide (p.1 ≠ k))

/-- Go `room.Participants[c]` lookup. -/
def plookup (k : Nat) (l : List (Nat × Nat)) : Option Nat :=
  (l.find? (fun p => decide (p.1 = k))).map (fun p => p.2)

/-- Go `room.Participants[c] = cid`. -/
def pset (k cid : Nat) (l : List (Nat × Nat)) : List (Nat × Nat) :=
  (k, cid) :: pdel k l

/-- Go `status[rid] = n` on the reply map of `handleWatchRooms`. -/
def sset (l : List (String × Nat)) (k : String) (v : Nat) : List (String × Nat) :=
  if l.any (fun p => decide (p.1 = k)) then
    l.map (fun p => if p.1 = k then (k, v) else p)
  else l ++ [(k, v)]

/-- Lookup in the reply map. -/
def slookup (k : String) : List (String × Nat) → Option Nat
  | [] => none
  | p :: rest => if p.1 = k then some p.2 else slookup k rest

/-- Add a watcher to `watchers[rid]` (a set in the source). -/
def wadd (f : String → List Nat) (rid : String) (k : Nat) : String → List Nat :=
  fun x => if x = rid then (if k ∈ f rid then f rid else f rid ++ [k]) else f x

/-- Participant count of a rid as the watcher broadcasts compute it
(0 when the room is not in the registry). -/
def countIn (h : Hub) (rid : String) : Nat :=
  match h.rooms rid with
  | some r => r.participants.length
  | none => 0

/-! ### Hub operations (src/server/room_id.go:232-794) -/

/-- `broadcastRoomState` (src/server/room_id.go:659-694): snapshot the
room and send `room_state` to every participant. -/
def broadcastRoomState (h : Hub) (rid : String) : List Send :=
  match h.rooms rid with
  | none => []
  | some room =>
      room.participants.map
        (fun p => (p.1, OutMsg.roomState rid room.hostCID (room.participants.map (fun q => q.2))))

/-- `broadcastRoomStatusUpdate` (src/server/room_id.go:755-794): send
`room_status_update {rid, count}` to every watcher of `rid`. -/
def broadcastRoomStatusUpdate (h : Hub) (rid : String) : List Send :=
  (h.watchers rid).map (fun w => (w, OutMsg.roomStatusUpdate rid (countIn h rid)))

/-- `removeClientFromRoom` (src/server/room_id.go:608-657). `c` is the
record of client `k` as the caller holds it. When `c.rid` is not in the
registry the function returns without touching anything (in particular it
does not clear the stale `rid`/`cid`). Otherwise it deletes the
membership, transfers the host to the first remaining participant if the
leaver was host, clears `c`'s fields, deletes the room if it became empty
(else broadcasts `room_state`), and notifies watchers. -/
def removeClientFromRoom (h : Hub) (k : Nat) (c : ClientSt) : Hub × List Send :=
  match h.rooms c.rid with
  | none => (h, [])
  | some room =>
    let rid := c.rid
    let parts := pdel k room.participants
    let host := if room.hostCID = c.cid then (parts.head?).map (fun p => p.2) else room.hostCID
    let h1 : Hub := { h with clients := clientUpd h.clients k ⟨none, ""⟩ }
    if parts.isEmpty then
      let h2 : Hub := { h1 with rooms := mupd h1.rooms rid none }
      (h2, broadcastRoomStatusUpdate h2 rid)
    else
      let h2 : Hub := { h1 with rooms := mupd h1.rooms rid (some ⟨parts, host⟩) }
      (h2, broadcastRoomState h2 rid ++ broadcastRoomStatusUpdate h2 rid)

/-- The cid chosen at src/server/room_id.go:388-391: always mint (the
source always calls `generateID`), but reuse the reconnect cid when the
ghost-eviction path matched. -/
def joinCid (reused : Bool) (reconnect : Option Nat) (mint : Nat) : Nat :=
  match reused, reconnect with
  | true, some rc => rc
  | _, _ => mint

/-- The insertion tail of `handleJoin` (src/server/room_id.go:388-439):
mint a cid (the source always calls `generateID`, then overrides it with
the reconnect cid when a ghost was evicted), insert the participant, set
the host if empty, emit `joined`, broadcast `room_state`, notify
watchers. -/
def joinInsert (h : Hub) (k : Nat) (rid : String) (reconnect : Option Nat) (reused : Bool)
    (room : Room) (tr : List Send) : Hub × List Send :=
  let cid := joinCid reused reconnect h.nextCid
  let parts := pset k cid room.participants
  let host := match room.hostCID with
    | none => some cid
    | some x => some x
  let h1 : Hub := { h with
    rooms := mupd h.rooms rid (some ⟨parts, host⟩),
    clients := clientUpd h.clients k ⟨some cid, rid⟩,
    nextCid := h.nextCid + 1 }
  (h1, tr ++ (k, OutMsg.joined rid cid host (parts.map (fun q => q.2)))
        :: (broadcastRoomState h1 rid ++ broadcastRoomStatusUpdate h1 rid))

/-- `handleJoin` (src/server/room_id.go:271-440). Validation errors reply
`BAD_REQUEST` / `SERVER_NOT_CONFIGURED` / `INVALID_ROOM_ID`. The room is
created if absent. The first reconnect block evicts a ghost participant
whose cid equals `reconnectCid` (clearing its record; the two `HostCID`
if-branches of lines 327-331 assign the value it already has and are
omitted as no-ops). The capacity block (lines 336-386) re-searches for a
ghost and, if found, calls `removeClientFromRoom` on it and re-checks
capacity — with distinct cids inside a room the first block has already
removed any match, so that search never succeeds (proved below); the
model re-reads the registry where the source re-reads the room pointer,
which only differs in that dead branch. A still-full room replies
`ROOM_FULL`; otherwise the client is inserted. -/
def handleJoin (vr : String → RidCheck) (h : Hub) (k : Nat) (c : ClientSt) (rid : String)
    (reconnect : Option Nat) : Hub × List Send :=
  if rid = "" then (h, [(k, OutMsg.errorMsg "" "BAD_REQUEST")]) else
  match vr rid with
  | .notConfigured => (h, [(k, OutMsg.errorMsg rid "SERVER_NOT_CONFIGURED")])
  | .invalidRid => (h, [(k, OutMsg.errorMsg rid "INVALID_ROOM_ID")])
  | .ok =>
    let h0 := match h.rooms rid with
      | some _ => h
      | none => { h with rooms := mupd h.rooms rid (some ⟨[], none⟩) }
    let room0 := (h0.rooms rid).getD ⟨[], none⟩
    let step1 : Hub × Room × Bool :=
      match reconnect with
      | none => (h0, room0, false)
      | some rc =>
        match room0.participants.find? (fun p => decide (p.2 = rc)) with
        | none => (h0, room0, false)
        | some g =>
          let room1 : Room := ⟨pdel g.1 room0.participants, room0.hostCID⟩
          ({ h0 with rooms := mupd h0.rooms rid (some room1),
                     clients := clientUpd h0.clients g.1 ⟨none, ""⟩ }, room1, true)
    let h1 := step1.1
    let room1 := step1.2.1
    let reused := step1.2.2
    if room1.participants.length ≥ 2 then
      let step2 : Hub × Room × Bool × List Send :=
        match reconnect with
        | none => (h1, room1, false, [])
        | some rc =>
          match room1.participants.find? (fun p => decide (p.2 = rc)) with
          | none => (h1, room1, false, [])
          | some g =>
            match h1.clients g.1 with
            | none => (h1, room1, false, [])
            | some gc =>
              let r2 := removeClientFromRoom h1 g.1 gc
              let room2 := (r2.1.rooms rid).getD ⟨[], none⟩
              (r2.1, room2, room2.participants.length < 2, r2.2)
      let h2 := step2.1
      let room2 := step2.2.1
      let evicted := step2.2.2.1
      let tr2 := step2.2.2.2
      if ¬ evicted ∧ room2.participants.length ≥ 2 then
        (h2, tr2 ++ [(k, OutMsg.errorMsg rid "ROOM_FULL")])
      else
        joinInsert h2 k rid reconnect reused room2 tr2
    else
      joinInsert h1 k rid reconnect reused room1 []

/-- The `"join"` dispatch of `handleMessage` (src/server/room_id.go:249-254):
a session already holding a `rid` is first removed from its room. -/
def execJoin (vr : String → RidCheck) (h : Hub) (k : Nat) (rid : String)
    (reconnect : Option Nat) : Hub × List Send :=
  match h.clients k with
  | none => (h, [])
  | some c =>
    let r1 := if c.rid ≠ "" then removeClientFromRoom h k c else (h, [])
    match r1.1.clients k with
    | none => r1
    | some c1 =>
      let r2 := handleJoin vr r1.1 k c1 rid reconnect
      (r2.1, r1.2 ++ r2.2)

/-- `handleLeave` (src/server/room_id.go:442-447). -/
def handleLeave (h : Hub) (k : Nat) (c : ClientSt) : Hub × List Send :=
  if c.rid = "" then (h, []) else removeClientFromRoom h k c

/-- `handleEndRoom` (src/server/room_id.go:449-523). A sender with no rid,
or whose rid is not in the registry, is ignored. A non-host sender gets
`error NOT_HOST`. The host path emits `room_ended {by: c.cid, reason:
"host_ended"}` to every member, deletes the room from the registry — the
members' client records keep their stale `rid`/`cid`, as the source's
comment block (lines 497-503) decides — and notifies watchers. -/
def handleEndRoom (h : Hub) (k : Nat) (c : ClientSt) : Hub × List Send :=
  if c.rid = "" then (h, [])
  else
    match h.rooms c.rid with
    | none => (h, [])
    | some room =>
      if room.hostCID ≠ c.cid then (h, [(k, OutMsg.errorMsg c.rid "NOT_HOST")])
      else
        let ends := room.participants.map
          (fun p => (p.1, OutMsg.roomEnded c.rid c.cid "host_ended"))
        let h1 : Hub := { h with rooms := mupd h.rooms c.rid none }
        (h1, ends ++ broadcastRoomStatusUpdate h1 c.rid)

/-- The recipient filter of `handleRelay` (src/server/room_id.go:574-585):
every participant whose cid differs from the sender's `c.cid`, further
restricted to cid = `to` when `to` is present. -/
def relayTargets (parts : List (Nat × Nat)) (senderCid toCid : Option Nat) :
    List (Nat × Nat) :=
  parts.filter (fun p =>
    decide (some p.2 ≠ senderCid) &&
      (match toCid with
       | none => true
       | some t => decide (t = p.2)))

/-- `handleRelay` (src/server/room_id.go:525-587). Senders with no rid,
an unregistered rid, or no membership in their room are dropped silently.
Otherwise the payload is rewritten to carry `from: c.cid` and forwarded to
`relayTargets`; a JSON-`null` payload panics on the nil-map assignment
(`none`, see the header comment). -/
def handleRelay (h : Hub) (k : Nat) (c : ClientSt) (kind : RelayKind) (toCid : Option Nat)
    (pl : RPayload) (msgRid : String) : Option (Hub × List Send) :=
  if c.rid = "" then some (h, [])
  else
    match h.rooms c.rid with
    | none => some (h, [])
    | some room =>
      if (plookup k room.participants).isNone then some (h, [])
      else
        match relayObj pl with
        | none => none
        | some fs =>
          let fs1 := jset fs "from" (Jval.jstr (optCidStr c.cid))
          let msg := OutMsg.relayed kind msgRid fs1
          some (h, (relayTargets room.participants c.cid toCid).map (fun p => (p.1, msg)))

/-- `handleWatchRooms` (src/server/room_id.go:715-753): for each supplied
rid that validates, add the sender to `watchers[rid]` and record the
current participant count (0 when the room does not exist); rids that fail
validation are skipped. One `room_statuses` reply carries the counts. -/
def watchStep (vr : String → RidCheck) (k : Nat) (acc : Hub × List (String × Nat))
    (rid : String) : Hub × List (String × Nat) :=
  if vr rid = RidCheck.ok then
    let h1 : Hub := { acc.1 with watchers := wadd acc.1.watchers rid k }
    (h1, sset acc.2 rid (countIn h1 rid))
  else acc

def handleWatchRooms (vr : String → RidCheck) (h : Hub) (k : Nat) (rids : List String) :
    Hub × List Send :=
  let r := rids.foldl (watchStep vr k) (h, [])
  (r.1, [(k, OutMsg.roomStatuses r.2)])

/-- `registerClient` (src/server/room_id.go:173-178); session keys are
fresh pointers in the source, so registration of an existing key is a
no-op in the model. -/
def registerClient (h : Hub) (k : Nat) : Hub :=
  match h.clients k with
  | some _ => h
  | none => { h with clients := fun x => if x = k then some ⟨none, ""⟩ else h.clients x }

/-- `disconnectClient` (src/server/room_id.go:589-606): unregister the
session, remove it from every watcher set (dropping emptied sets is
invisible in the list model), then remove it from its room if it has
one. -/
def disconnectClient (h : Hub) (k : Nat) : Hub × List Send :=
  match h.clients k with
  | none => (h, [])
  | some c =>
    let h1 : Hub := { h with
      clients := fun x => if x = k then none else h.clients x,
      watchers := fun r => (h.watchers r).filter (fun w => decide (w ≠ k)) }
    if c.rid ≠ "" then removeClientFromRoom h1 k c else (h1, [])

/-! ### Operations and execution -/

/-- The hub-mutating operations a transport can deliver (after envelope
checks): session registration and the message types of `handleMessage`.
`join` carries the parsed `reconnectCid`, `relay` the parsed payload and
the envelope's `to` and `rid` fields. -/
inductive Op where
  | connect : Nat → Op
  | join : Nat → String → Option Nat → Op
  | leave : Nat → Op
  | endRoom : Nat → Op
  | relay : Nat → RelayKind → Option Nat → RPayload → String → Op
  | watchRooms : Nat → List String → Op
  | disconnect : Nat → Op

/-- One completed operation: the new hub state and the emitted messages;
`none` when the operation panics (only the relay nil-map case). Message
operations for unregistered sessions cannot arise (transports dispatch
only for live sessions) and are no-ops. -/
def exec (vr : String → RidCheck) (h : Hub) : Op → Option (Hub × List Send)
  | .connect k => some (registerClient h k, [])
  | .join k rid rc => some (execJoin vr h k rid rc)
  | .leave k =>
    match h.clients k with
    | none => some (h, [])
    | some c => some (handleLeave h k c)
  | .endRoom k =>
    match h.clients k with
    | none => some (h, [])
    | some c => some (handleEndRoom h k c)
  | .relay k kind toCid pl mrid =>
    match h.clients k with
    | none => some (h, [])
    | some c => handleRelay h k c kind toCid pl mrid
  | .watchRooms k rids =>
    match h.clients k with
    | none => some (h, [])
    | some _ => some (handleWatchRooms vr h k rids)
  | .disconnect k => some (disconnectClient h k)

/-- Run a sequence of operations from a state, stopping on a panic. -/
def execList (vr : String → RidCheck) (h : Hub) : List Op → Option Hub
  | [] => some h
  | op :: ops =>
    match exec vr h op with
    | none => none
    | some r => execList vr r.1 ops

/-! ### The per-session outbound queue (src/server/room_id.go:219-230)

`sendMessage` marshals the message and enqueues it on the session's
channel of capacity 256 (`make(chan []byte, 256)`, src/server/sse.go:59)
with `select { case c.send <- b: default: }`: a full queue drops the
message. -/

def sendMessage (queue : List OutMsg) (msg : OutMsg) : List OutMsg :=
  if queue.length < 256 then queue ++ [msg] else queue

/-- Enqueue onto one session's queue in the map of all session queues. -/
def enqueueTo (qs : Nat → List OutMsg) (k : Nat) (m : OutMsg) : Nat → List OutMsg :=
  fun x => if x = k then sendMessage (qs x) m else qs x

/-! ### The registry invariant (proved of every reachable hub state) -/

/-- Keys of a participants association list are distinct (Go map keys). -/
def keysNodup (l : List (Nat × Nat)) : Prop := (l.map Prod.fst).Nodup

structure WF (h : Hub) : Prop where
  noEmptyRid : h.rooms "" = none
  partNodup : ∀ rid room, h.rooms rid = some room → keysNodup room.participants
  partLe2 : ∀ rid room, h.rooms rid = some room → room.participants.length ≤ 2
  partNe : ∀ rid room, h.rooms rid = some room → room.participants ≠ []
  hostMem : ∀ rid room, h.rooms rid = some room →
    ∃ p, p ∈ room.participants ∧ room.hostCID = some p.2
  partClient : ∀ rid room, h.rooms rid = some room → ∀ p, p ∈ room.participants →
    ∃ c, h.clients p.1 = some c ∧ c.cid = some p.2 ∧ c.rid = rid
  cidInj : ∀ k1 k2 c1 c2 a, h.clients k1 = some c1 → h.clients k2 = some c2 →
    c1.cid = some a → c2.cid = some a → k1 = k2
  cidLt : ∀ k c a, h.clients k = some c → c.cid = some a → a < h.nextCid


/-! ### Concrete instances used by the witnesses below -/

/-- A validation oracle accepting every rid (the hub is parametric in it). -/
def vrOk : String → RidCheck := fun _ => RidCheck.ok

/-- Two sessions joining one room. -/
def opsPair : List Op := [Op.connect 0, Op.join 0 "R1" none, Op.connect 1, Op.join 1 "R1" none]

/-- The reachable state after `opsPair`. -/
def hubPair : Hub := (execList vrOk hub0 opsPair).getD hub0

/-- Recognizer for `room_ended` emissions (used to count deliveries). -/
def isRoomEnded : OutMsg → Bool
  | .roomEnded _ _ _ => true
  | _ => false

/-- Recognizer for `room_state` emissions. -/
def isRoomState : OutMsg → Bool
  | .roomState _ _ _ => true
  | _ => false

/-- A toy MAC for the concrete witnesses (32 bytes derived from the message
length); the development is parametric in the real HMAC-SHA-256. -/
def macToy : MacFn := fun _ msg => (List.range 32).map (fun i => (i * 7 + msg.length) % 256)

def secretToy : List Nat := [1, 2, 3]

/-- Arbitrary context bytes standing for `roomIDContext()`. -/
def ctxToy : List Nat := [105, 100]

/-- Twelve concrete bytes standing for the system RNG's output. -/
def randomToy : List Nat := List.range 12

/-- The token `generateRoomID macToy secretToy ctxToy randomToy` mints. -/
def r1tok : String := "AAECAwQFBgcICQoLDhUcIyoxOD8"

/-- Room-ID validation instantiated with the toy MAC. -/
def vrReal : String → RidCheck := fun s => ridCheck macToy secretToy ctxToy s

/-- Two sessions in one room plus a third connected session. -/
def opsC4 : List Op := opsPair ++ [Op.connect 2]

/-- The reachable state after `opsC4`. -/
def hubC4 : Hub := (execList vrOk hub0 opsC4).getD hub0

/-- One host whose room it then ends with `end_room`. -/
def opsEnd : List Op := [Op.connect 0, Op.join 0 "R1" none, Op.endRoom 0]

/-- The reachable state after `opsEnd`. -/
def hubEnd : Hub := (execList vrOk hub0 opsEnd).getD hub0

/-! ## Theorems -/

theorem b64Val_b64Char {n : Nat} (h : n < 64) : b64Val (b64Char n) = some n := by
  have hall : ∀ m < 64, b64Val (b64Char m) = some m := by decide
  exact hall n h

theorem b64Vals_cons {c : Char} {cs : List Char} {v : Nat} {vs : List Nat}
    (h1 : b64Val c = some v) (h2 : b64Vals cs = some vs) :
    b64Vals (c :: cs) = some (v :: vs) := by
  simp only [b64Vals, h1, h2]

theorem b64Decode_eq {s : List Char} {vs : List Nat} (h : b64Vals s = some vs) :
    b64Decode s = b64DecodeVals vs := by
  unfold b64Decode
  rw [h]

theorem b64Decode_encode (bs : List Nat) (hb : ∀ b ∈ bs, b < 256) :
    b64Decode (b64EncodeBytes bs) = some bs := by
  match bs with
  | [] => rfl
  | [b0] =>
    have h0 : b0 < 256 := hb b0 (by simp)
    have e0 : b64Val (b64Char (b0 / 4)) = some (b0 / 4) := b64Val_b64Char (by omega)
    have e1 : b64Val (b64Char (b0 % 4 * 16)) = some (b0 % 4 * 16) := b64Val_b64Char (by omega)
    simp only [b64EncodeBytes, b64Decode, b64Vals, e0, e1, b64DecodeVals,
      Option.some.injEq, List.cons.injEq, and_true]
    omega
  | [b0, b1] =>
    have h0 : b0 < 256 := hb b0 (by simp)
    have h1 : b1 < 256 := hb b1 (by simp)
    have e0 : b64Val (b64Char (b0 / 4)) = some (b0 / 4) := b64Val_b64Char (by omega)
    have e1 : b64Val (b64Char (b0 % 4 * 16 + b1 / 16)) = some (b0 % 4 * 16 + b1 / 16) :=
      b64Val_b64Char (by omega)
    have e2 : b64Val (b64Char (b1 % 16 * 4)) = some (b1 % 16 * 4) := b64Val_b64Char (by omega)
    simp only [b64EncodeBytes, b64Decode, b64Vals, e0, e1, e2, b64DecodeVals,
      Option.some.injEq, List.cons.injEq, and_true]
    omega
  | b0 :: b1 :: b2 :: rest =>
    have h0 : b0 < 256 := hb b0 (by simp)
    have h1 : b1 < 256 := hb b1 (by simp)
    have h2 : b2 < 256 := hb b2 (by simp)
    have ih := b64Decode_encode rest (fun b hbm => hb b (by simp [hbm]))
    have e0 : b64Val (b64Char (b0 / 4)) = some (b0 / 4) := b64Val_b64Char (by omega)
    have e1 : b64Val (b64Char (b0 % 4 * 16 + b1 / 16)) = some (b0 % 4 * 16 + b1 / 16) :=
      b64Val_b64Char (by omega)
    have e2 : b64Val (b64Char (b1 % 16 * 4 + b2 / 64)) = some (b1 % 16 * 4 + b2 / 64) :=
      b64Val_b64Char (by omega)
    have e3 : b64Val (b64Char (b2 % 64)) = some (b2 % 64) := b64Val_b64Char (by omega)
    match hv : b64Vals (b64EncodeBytes rest) with
    | none =>
      unfold b64Decode at ih
      rw [hv] at ih
      exact absurd ih (by simp)
    | some vs =>
      have ihv : b64DecodeVals vs = some rest := by
        unfold b64Decode at ih
        rw [hv] at ih
        simpa using ih
      have hvals : b64Vals (b64EncodeBytes (b0 :: b1 :: b2 :: rest)) =
          some ((b0 / 4) :: (b0 % 4 * 16 + b1 / 16) :: (b1 % 16 * 4 + b2 / 64) ::
            (b2 % 64) :: vs) :=
        b64Vals_cons e0 (b64Vals_cons e1 (b64Vals_cons e2 (b64Vals_cons e3 hv)))
      rw [b64Decode_eq hvals]
      simp only [b64DecodeVals, ihv, Option.map_some']
      simp only [Option.some.injEq, List.cons.injEq]
      refine ⟨by omega, by omega, by omega, trivial⟩

theorem length_b64EncodeBytes (bs : List Nat) :
    (b64EncodeBytes bs).length =
      4 * (bs.length / 3) + (if bs.length % 3 = 0 then 0 else bs.length % 3 + 1) := by
  match bs with
  | [] => rfl
  | [_] =>
    simp only [b64EncodeBytes, List.length_cons, List.length_nil]
    norm_num
  | [_, _] =>
    simp only [b64EncodeBytes, List.length_cons, List.length_nil]
    norm_num
  | _ :: _ :: _ :: rest =>
    have ih := length_b64EncodeBytes rest
    simp only [b64EncodeBytes, List.length_cons, ih]
    split_ifs <;> omega



theorem length_take_tag {mac : MacFn} {secret m : List Nat}
    (htl : roomIDTagBytes ≤ (mac secret m).length) :
    ((mac secret m).take roomIDTagBytes).length = roomIDTagBytes := by
  simp [List.length_take]
  omega

theorem validate_reduce {mac : MacFn} {secret ctx : List Nat} {s : String} {raw : List Nat}
    (hne : s ≠ "") (hl : s.length = roomIDEncodedBytes) (hs : secret ≠ [])
    (hd : b64Decode s.data = some raw) :
    validateRoomID mac secret ctx s =
      (if raw.length ≠ roomIDTotalBytes then .error .invalidRoomID
       else if raw.drop roomIDRandomBytes =
           (mac secret (raw.take roomIDRandomBytes ++ ctx)).take roomIDTagBytes then .ok ()
       else .error .invalidRoomID) := by
  unfold validateRoomID
  rw [if_neg hne, if_neg (by simp [hl]), if_neg hs, hd]

theorem validate_reduce_none {mac : MacFn} {secret ctx : List Nat} {s : String}
    (hne : s ≠ "") (hl : s.length = roomIDEncodedBytes) (hs : secret ≠ [])
    (hd : b64Decode s.data = none) :
    validateRoomID mac secret ctx s = .error .invalidRoomID := by
  unfold validateRoomID
  rw [if_neg hne, if_neg (by simp [hl]), if_neg hs, hd]

/-- C2: with a configured (non-empty) secret, and any MAC whose tag is long
enough and byte-valued, room-ID generation returns a 27-character base64url
token that decodes to its 20 bytes (the 12 random bytes plus the 8-byte
truncated MAC tag) and that validation accepts; and validation rejects
every string whose length is not 27, that fails base64 decoding, whose
decoded length is not 20, or whose tag does not match the recomputed
MAC. -/
theorem C2_room_id_mint_and_validate (mac : MacFn) (secret ctx random : List Nat)
    (hsec : secret ≠ [])
    (hlen : random.length = roomIDRandomBytes)
    (hrb : ∀ b ∈ random, b < 256)
    (htl : roomIDTagBytes ≤ (mac secret (random ++ ctx)).length)
    (htb : ∀ b ∈ (mac secret (random ++ ctx)).take roomIDTagBytes, b < 256) :
    ∃ tok, generateRoomID mac secret ctx random = .ok tok ∧
      tok.length = roomIDEncodedBytes ∧
      b64Decode tok.data =
        some (random ++ (mac secret (random ++ ctx)).take roomIDTagBytes) ∧
      ((mac secret (random ++ ctx)).take roomIDTagBytes).length = roomIDTagBytes ∧
      validateRoomID mac secret ctx tok = .ok () ∧
      (∀ s : String, s.length ≠ roomIDEncodedBytes → validateRoomID mac secret ctx s ≠ .ok ()) ∧
      (∀ s : String, b64Decode s.data = none → validateRoomID mac secret ctx s ≠ .ok ()) ∧
      (∀ s : String, ∀ raw, b64Decode s.data = some raw → raw.length ≠ roomIDTotalBytes →
        validateRoomID mac secret ctx s ≠ .ok ()) ∧
      (∀ s : String, ∀ raw, b64Decode s.data = some raw →
        raw.drop roomIDRandomBytes ≠
          (mac secret (raw.take roomIDRandomBytes ++ ctx)).take roomIDTagBytes →
        validateRoomID mac secret ctx s ≠ .ok ()) := by
  set tag := (mac secret (random ++ ctx)).take roomIDTagBytes with htag
  have htagl : tag.length = roomIDTagBytes := length_take_tag htl
  set bs := random ++ tag with hbs
  have hbsl : bs.length = roomIDTotalBytes := by
    simp [hbs, List.length_append, hlen, htagl, roomIDTotalBytes]
  have hbsb : ∀ b ∈ bs, b < 256 := by
    intro b hbm
    rcases List.mem_append.mp hbm with h | h
    · exact hrb b h
    · exact htb b h
  refine ⟨String.mk (b64EncodeBytes bs), ?_, ?_, ?_, htagl, ?_, ?_, ?_, ?_, ?_⟩
  · unfold generateRoomID
    rw [if_neg hsec]
  · show (b64EncodeBytes bs).length = roomIDEncodedBytes
    rw [length_b64EncodeBytes, hbsl]
    rfl
  · exact b64Decode_encode bs hbsb
  · have hne : String.mk (b64EncodeBytes bs) ≠ "" := by
      intro hq
      have : (b64EncodeBytes bs).length = 0 := by
        rw [show b64EncodeBytes bs = ([] : List Char) from congrArg String.data hq]
        rfl
      rw [length_b64EncodeBytes, hbsl] at this
      simp [roomIDTotalBytes, roomIDRandomBytes, roomIDTagBytes] at this
    have hl : (String.mk (b64EncodeBytes bs)).length = roomIDEncodedBytes := by
      show (b64EncodeBytes bs).length = roomIDEncodedBytes
      rw [length_b64EncodeBytes, hbsl]
      rfl
    rw [validate_reduce hne hl hsec (b64Decode_encode bs hbsb)]
    rw [if_neg (by simp [hbsl])]
    rw [if_pos]
    have h1 : bs.take roomIDRandomBytes = random := by
      rw [hbs, ← hlen, List.take_left]
    have h2 : bs.drop roomIDRandomBytes = tag := by
      rw [hbs, ← hlen, List.drop_left]
    rw [h1, h2, htag]
  · intro s hsl hok
    unfold validateRoomID at hok
    by_cases q1 : s = ""
    · rw [if_pos q1] at hok
      exact absurd hok (by simp)
    · rw [if_neg q1, if_pos hsl] at hok
      exact absurd hok (by simp)
  · intro s hd hok
    by_cases q1 : s = ""
    · unfold validateRoomID at hok
      rw [if_pos q1] at hok
      exact absurd hok (by simp)
    by_cases q2 : s.length = roomIDEncodedBytes
    · rw [validate_reduce_none q1 q2 hsec hd] at hok
      exact absurd hok (by simp)
    · unfold validateRoomID at hok
      rw [if_neg q1, if_pos q2] at hok
      exact absurd hok (by simp)
  · intro s raw hd hrl hok
    by_cases q1 : s = ""
    · unfold validateRoomID at hok
      rw [if_pos q1] at hok
      exact absurd hok (by simp)
    by_cases q2 : s.length = roomIDEncodedBytes
    · rw [validate_reduce q1 q2 hsec hd, if_pos hrl] at hok
      exact absurd hok (by simp)
    · unfold validateRoomID at hok
      rw [if_neg q1, if_pos q2] at hok
      exact absurd hok (by simp)
  · intro s raw hd hne hok
    by_cases q1 : s = ""
    · unfold validateRoomID at hok
      rw [if_pos q1] at hok
      exact absurd hok (by simp)
    by_cases q2 : s.length = roomIDEncodedBytes
    · rw [validate_reduce q1 q2 hsec hd] at hok
      split_ifs at hok
    · unfold validateRoomID at hok
      rw [if_neg q1, if_pos q2] at hok
      exact absurd hok (by simp)

/-! ### Helper lemmas: maps and participant lists -/

theorem mupd_self {α : Type} (f : String → Option α) (k : String) (v : Option α) :
    mupd f k v k = v := by
  simp [mupd]

theorem mupd_ne {α : Type} (f : String → Option α) {k x : String} (v : Option α)
    (h : x ≠ k) : mupd f k v x = f x := by
  simp [mupd, h]

theorem clientUpd_self_of_some {f : Nat → Option ClientSt} {k : Nat} {c : ClientSt}
    (v : ClientSt) (h : f k = some c) : clientUpd f k v k = some v := by
  simp [clientUpd, h]

theorem clientUpd_ne (f : Nat → Option ClientSt) {k x : Nat} (v : ClientSt)
    (h : x ≠ k) : clientUpd f k v x = f x := by
  simp [clientUpd, h]

theorem mem_pdel {p : Nat × Nat} {k : Nat} {l : List (Nat × Nat)} :
    p ∈ pdel k l ↔ p ∈ l ∧ p.1 ≠ k := by
  simp [pdel]

theorem pdel_eq_self {k : Nat} {l : List (Nat × Nat)} (h : ∀ p ∈ l, p.1 ≠ k) :
    pdel k l = l := by
  rw [pdel, List.filter_eq_self]
  intro p hp
  simpa using h p hp

theorem length_pdel_le (k : Nat) (l : List (Nat × Nat)) :
    (pdel k l).length ≤ l.length :=
  List.length_filter_le _ l

theorem length_pdel_lt {k cid : Nat} {l : List (Nat × Nat)} (h : (k, cid) ∈ l) :
    (pdel k l).length < l.length := by
  induction l with
  | nil => cases h
  | cons p rest ih =>
    rw [pdel, List.filter_cons]
    by_cases hp : p.1 = k
    · rw [if_neg (by simp [hp])]
      exact Nat.lt_succ_of_le (length_pdel_le k rest)
    · rw [if_pos (by simp [hp])]
      rcases List.mem_cons.mp h with he | hm
      · exact absurd (congrArg Prod.fst he.symm) hp
      · simp only [List.length_cons]
        exact Nat.succ_lt_succ (ih hm)

theorem keysNodup_pdel {k : Nat} {l : List (Nat × Nat)} (h : keysNodup l) :
    keysNodup (pdel k l) :=
  h.sublist (List.Sublist.map _ (List.filter_sublist l))

theorem eq_of_mem_keysNodup {l : List (Nat × Nat)} (h : keysNodup l)
    {a b b' : Nat} (h1 : (a, b) ∈ l) (h2 : (a, b') ∈ l) : b = b' := by
  induction l with
  | nil => cases h1
  | cons p rest ih =>
    have hn : ¬ (p.1 ∈ rest.map Prod.fst) ∧ keysNodup rest := by
      simpa [keysNodup] using h
    rcases List.mem_cons.mp h1 with he1 | hm1 <;> rcases List.mem_cons.mp h2 with he2 | hm2
    · rw [← he1] at he2
      exact (Prod.mk.injEq _ _ _ _ ▸ he2).2.symm ▸ rfl
    · exact absurd (List.mem_map_of_mem Prod.fst hm2)
        (by rw [← he1] at hn; simpa using hn.1)
    · exact absurd (List.mem_map_of_mem Prod.fst hm1)
        (by rw [← he2] at hn; simpa using hn.1)
    · exact ih hn.2 hm1 hm2

theorem plookup_of_mem {k cid : Nat} {l : List (Nat × Nat)} (hn : keysNodup l)
    (hm : (k, cid) ∈ l) : plookup k l = some cid := by
  induction l with
  | nil => cases hm
  | cons p rest ih =>
    have hn' : ¬ (p.1 ∈ rest.map Prod.fst) ∧ keysNodup rest := by
      simpa [keysNodup] using hn
    rcases List.mem_cons.mp hm with he | hm'
    · rw [← he]
      simp [plookup, List.find?]
    · by_cases hp : p.1 = k
      · exact absurd (List.mem_map_of_mem Prod.fst hm')
          (by rw [hp] at hn'; exact hn'.1)
      · rw [plookup]
        have hfc : List.find? (fun q => decide (q.1 = k)) (p :: rest) =
            List.find? (fun q => decide (q.1 = k)) rest := by
          simp [List.find?_cons, hp]
        rw [hfc]
        exact ih hn'.2 hm'

theorem mem_of_plookup {k cid : Nat} {l : List (Nat × Nat)}
    (h : plookup k l = some cid) : (k, cid) ∈ l := by
  rw [plookup] at h
  match hf : l.find? (fun p => decide (p.1 = k)) with
  | none => rw [hf] at h; cases h
  | some g =>
    rw [hf] at h
    have hg1 : g ∈ l := List.mem_of_find?_eq_some hf
    have hg2 : g.1 = k := by simpa using List.find?_some hf
    have hg3 : g.2 = cid := by simpa using h
    have hge : (g.1, g.2) = (k, cid) := by rw [hg2, hg3]
    rw [← hge]
    simpa using hg1

theorem plookup_none {k : Nat} {l : List (Nat × Nat)}
    (h : ∀ p ∈ l, p.1 ≠ k) : plookup k l = none := by
  rw [plookup, List.find?_eq_none.mpr]
  · rfl
  · intro p hp
    simpa using h p hp

theorem find?_cid_none {rc : Nat} {l : List (Nat × Nat)}
    (h : ∀ p ∈ l, p.2 ≠ rc) : l.find? (fun p => decide (p.2 = rc)) = none := by
  rw [List.find?_eq_none]
  intro p hp
  simpa using h p hp

theorem find?_cid_some {rc : Nat} {l : List (Nat × Nat)} {g : Nat × Nat}
    (h : l.find? (fun p => decide (p.2 = rc)) = some g) : g ∈ l ∧ g.2 = rc :=
  ⟨List.mem_of_find?_eq_some h, by simpa using List.find?_some h⟩

theorem head?_mem_of_ne_nil {l : List (Nat × Nat)} (h : l ≠ []) :
    ∃ p, l.head? = some p ∧ p ∈ l := by
  cases l with
  | nil => exact absurd rfl h
  | cons p rest => exact ⟨p, rfl, List.mem_cons_self p rest⟩



/-! ### The registry invariant -/

theorem WF_hub0 : WF hub0 := by
  constructor
  · rfl
  · intro rid room h
    cases h
  · intro rid room h
    cases h
  · intro rid room h
    cases h
  · intro rid room h
    cases h
  · intro rid room h
    cases h
  · intro k1 k2 c1 c2 a h1 h2
    cases h1
  · intro k c a h1
    cases h1

theorem WF_fields {h h' : Hub} (hr : h'.rooms = h.rooms) (hc : h'.clients = h.clients)
    (hn : h'.nextCid = h.nextCid) (hw : WF h) : WF h' := by
  constructor
  · rw [hr]
    exact hw.noEmptyRid
  · rw [hr]
    exact hw.partNodup
  · rw [hr]
    exact hw.partLe2
  · rw [hr]
    exact hw.partNe
  · rw [hr]
    exact hw.hostMem
  · rw [hr, hc]
    exact hw.partClient
  · rw [hc]
    exact hw.cidInj
  · rw [hc, hn]
    exact hw.cidLt

/-- cids are distinct inside a room: two participant entries with the same
cid are the same entry. -/
theorem WF.cidDistinct {h : Hub} (hw : WF h) {rid : String} {room : Room}
    (hr : h.rooms rid = some room) {p q : Nat × Nat}
    (hp : p ∈ room.participants) (hq : q ∈ room.participants) (he : p.2 = q.2) : p = q := by
  obtain ⟨cp, hcp, hcp2, _⟩ := hw.partClient rid room hr p hp
  obtain ⟨cq, hcq, hcq2, _⟩ := hw.partClient rid room hr q hq
  have hq2 : cq.cid = some p.2 := by
    rw [he]
    exact hcq2
  have hk : p.1 = q.1 := hw.cidInj p.1 q.1 cp cq p.2 hcp hcq hcp2 hq2
  have hv := eq_of_mem_keysNodup (hw.partNodup rid room hr)
    (show (p.1, p.2) ∈ room.participants by simpa using hp)
    (show (p.1, q.2) ∈ room.participants by rw [hk]; simpa using hq)
  calc p = (p.1, p.2) := rfl
  _ = (q.1, q.2) := by rw [hk, hv]
  _ = q := rfl

/-- A client whose `rid` is empty or names no registered room is not a
participant of any room. -/
theorem WF.notParticipant {h : Hub} (hw : WF h) {k : Nat} {c : ClientSt}
    (hk : h.clients k = some c) (hrid : c.rid = "" ∨ h.rooms c.rid = none) :
    ∀ rid room p, h.rooms rid = some room → p ∈ room.participants → p.1 ≠ k := by
  intro rid room p hr hp he
  obtain ⟨c', hc', _, hcr⟩ := hw.partClient rid room hr p hp
  rw [he, hk] at hc'
  have hcc : c' = c := (Option.some.inj hc').symm
  rw [hcc] at hcr
  rcases hrid with h0 | h0
  · rw [← hcr, h0] at hr
    rw [hw.noEmptyRid] at hr
    cases hr
  · rw [← hcr, h0] at hr
    cases hr



/-! ### Shape lemmas for `removeClientFromRoom` -/

theorem removeClientFromRoom_noRoom {h : Hub} {k : Nat} {c : ClientSt}
    (hr : h.rooms c.rid = none) : removeClientFromRoom h k c = (h, []) := by
  unfold removeClientFromRoom
  rw [hr]

theorem removeClientFromRoom_empty {h : Hub} {k : Nat} {c : ClientSt} {room : Room}
    (hr : h.rooms c.rid = some room) (he : pdel k room.participants = []) :
    removeClientFromRoom h k c =
      (let h2 : Hub := { h with clients := clientUpd h.clients k ⟨none, ""⟩,
                                rooms := mupd h.rooms c.rid none }
       (h2, broadcastRoomStatusUpdate h2 c.rid)) := by
  unfold removeClientFromRoom
  rw [hr]
  simp only [he]
  rfl

theorem removeClientFromRoom_cons {h : Hub} {k : Nat} {c : ClientSt} {room : Room}
    (hr : h.rooms c.rid = some room) (he : pdel k room.participants ≠ []) :
    removeClientFromRoom h k c =
      (let parts := pdel k room.participants
       let host := if room.hostCID = c.cid then parts.head?.map (fun p => p.2)
         else room.hostCID
       let h2 : Hub := { h with clients := clientUpd h.clients k ⟨none, ""⟩,
                                rooms := mupd h.rooms c.rid (some ⟨parts, host⟩) }
       (h2, broadcastRoomState h2 c.rid ++ broadcastRoomStatusUpdate h2 c.rid)) := by
  unfold removeClientFromRoom
  rw [hr]
  simp only [List.isEmpty_eq_true, he]
  rfl

/-! ### Clients-map update case lemmas -/

theorem clientUpd_some_cases {f : Nat → Option ClientSt} {k : Nat} {v : ClientSt} {x : Nat}
    {c : ClientSt} (h : clientUpd f k v x = some c) :
    (x = k ∧ c = v) ∨ (x ≠ k ∧ f x = some c) := by
  by_cases e : x = k
  · subst e
    rw [clientUpd] at h
    simp only [if_pos rfl] at h
    rcases Option.map_eq_some'.mp h with ⟨c0, _, hv⟩
    exact Or.inl ⟨rfl, hv.symm⟩
  · exact Or.inr ⟨e, by rwa [clientUpd_ne f v e] at h⟩

/-- Clearing one client's record preserves cid injectivity and bounds. -/
theorem cidInj_clear {h : Hub} (hw : WF h) (k : Nat) :
    ∀ k1 k2 c1 c2 a, clientUpd h.clients k ⟨none, ""⟩ k1 = some c1 →
      clientUpd h.clients k ⟨none, ""⟩ k2 = some c2 →
      c1.cid = some a → c2.cid = some a → k1 = k2 := by
  intro k1 k2 c1 c2 a h1 h2 hc1 hc2
  rcases clientUpd_some_cases h1 with ⟨_, rfl⟩ | ⟨_, hf1⟩
  · cases hc1
  rcases clientUpd_some_cases h2 with ⟨_, rfl⟩ | ⟨_, hf2⟩
  · cases hc2
  exact hw.cidInj k1 k2 c1 c2 a hf1 hf2 hc1 hc2

theorem cidLt_clear {h : Hub} (hw : WF h) (k : Nat) :
    ∀ k1 c1 a, clientUpd h.clients k ⟨none, ""⟩ k1 = some c1 →
      c1.cid = some a → a < h.nextCid := by
  intro k1 c1 a h1 hc1
  rcases clientUpd_some_cases h1 with ⟨_, rfl⟩ | ⟨_, hf1⟩
  · cases hc1
  exact hw.cidLt k1 c1 a hf1 hc1

/-! ### Preservation: `registerClient` -/

theorem WF_registerClient {h : Hub} (hw : WF h) (k : Nat) : WF (registerClient h k) := by
  unfold registerClient
  match hk : h.clients k with
  | some _ => exact hw
  | none =>
    constructor
    · exact hw.noEmptyRid
    · exact hw.partNodup
    · exact hw.partLe2
    · exact hw.partNe
    · exact hw.hostMem
    · intro rid room hr p hp
      obtain ⟨c0, hc0, hcc, hcr⟩ := hw.partClient rid room hr p hp
      refine ⟨c0, ?_, hcc, hcr⟩
      show (if p.1 = k then some ⟨none, ""⟩ else h.clients p.1) = some c0
      by_cases e : p.1 = k
      · rw [e, hk] at hc0
        cases hc0
      · rw [if_neg e]
        exact hc0
    · intro k1 k2 c1 c2 a h1 h2 hc1 hc2
      by_cases e1 : k1 = k
      · rw [show Hub.clients _ k1 = (if k1 = k then some ⟨none, ""⟩ else h.clients k1) from rfl,
          if_pos e1] at h1
        cases Option.some.inj h1
        cases hc1
      · by_cases e2 : k2 = k
        · rw [show Hub.clients _ k2 = (if k2 = k then some ⟨none, ""⟩ else h.clients k2) from rfl,
            if_pos e2] at h2
          cases Option.some.inj h2
          cases hc2
        · rw [show Hub.clients _ k1 = (if k1 = k then some ⟨none, ""⟩ else h.clients k1) from rfl,
            if_neg e1] at h1
          rw [show Hub.clients _ k2 = (if k2 = k then some ⟨none, ""⟩ else h.clients k2) from rfl,
            if_neg e2] at h2
          exact hw.cidInj k1 k2 c1 c2 a h1 h2 hc1 hc2
    · intro k1 c1 a h1 hc1
      by_cases e1 : k1 = k
      · rw [show Hub.clients _ k1 = (if k1 = k then some ⟨none, ""⟩ else h.clients k1) from rfl,
          if_pos e1] at h1
        cases Option.some.inj h1
        cases hc1
      · rw [show Hub.clients _ k1 = (if k1 = k then some ⟨none, ""⟩ else h.clients k1) from rfl,
          if_neg e1] at h1
        exact hw.cidLt k1 c1 a h1 hc1



/-- A participant of a room other than `c.rid` is not the client `k`
holding record `c`. -/
theorem ne_k_of_other_room {h : Hub} {k : Nat} {c : ClientSt} (hw : WF h)
    (hk : h.clients k = some c) {rid : String} {room' : Room} {p : Nat × Nat}
    (hr' : h.rooms rid = some room') (hx : rid ≠ c.rid) (hp : p ∈ room'.participants) :
    p.1 ≠ k := by
  intro e
  obtain ⟨c0, hc0, _, hcr⟩ := hw.partClient rid room' hr' p hp
  rw [e, hk] at hc0
  have hcc : c0 = c := (Option.some.inj hc0).symm
  rw [hcc] at hcr
  exact hx hcr.symm

/-- A participant of the room at `c.rid` whose cid is the room's host cid
is the entry of `k` itself, provided the host equals `c.cid`. Contrapositive
helper: if the host differs from `c.cid`, the host witness survives the
deletion of `k`. -/
theorem host_witness_survives {h : Hub} {k : Nat} {c : ClientSt} (hw : WF h)
    (hk : h.clients k = some c) {room : Room} (hr : h.rooms c.rid = some room)
    (hh : ¬ room.hostCID = c.cid) {p : Nat × Nat} (hpm : p ∈ room.participants)
    (hph : room.hostCID = some p.2) : p ∈ pdel k room.participants := by
  rw [mem_pdel]
  refine ⟨hpm, ?_⟩
  intro e
  obtain ⟨c0, hc0, hcc, _⟩ := hw.partClient c.rid room hr p hpm
  rw [e, hk] at hc0
  have : c0 = c := (Option.some.inj hc0).symm
  rw [this] at hcc
  exact hh (by rw [hph, ← hcc])

theorem WF_removeClientFromRoom {h : Hub} {k : Nat} {c : ClientSt}
    (hw : WF h) (hk : h.clients k = some c) :
    WF (removeClientFromRoom h k c).1 := by
  match hr : h.rooms c.rid with
  | none =>
    rw [removeClientFromRoom_noRoom hr]
    exact hw
  | some room =>
    have hrne : c.rid ≠ "" := by
      intro q
      rw [q, hw.noEmptyRid] at hr
      cases hr
    by_cases he : pdel k room.participants = []
    · rw [removeClientFromRoom_empty hr he]
      constructor <;> dsimp only
      · show mupd h.rooms c.rid none "" = none
        rw [mupd_ne _ _ (fun q => hrne q.symm)]
        exact hw.noEmptyRid
      · intro rid room' hr'
        by_cases hx : rid = c.rid
        · rw [hx, mupd_self] at hr'
          cases hr'
        · rw [mupd_ne _ _ hx] at hr'
          exact hw.partNodup rid room' hr'
      · intro rid room' hr'
        by_cases hx : rid = c.rid
        · rw [hx, mupd_self] at hr'
          cases hr'
        · rw [mupd_ne _ _ hx] at hr'
          exact hw.partLe2 rid room' hr'
      · intro rid room' hr'
        by_cases hx : rid = c.rid
        · rw [hx, mupd_self] at hr'
          cases hr'
        · rw [mupd_ne _ _ hx] at hr'
          exact hw.partNe rid room' hr'
      · intro rid room' hr'
        by_cases hx : rid = c.rid
        · rw [hx, mupd_self] at hr'
          cases hr'
        · rw [mupd_ne _ _ hx] at hr'
          exact hw.hostMem rid room' hr'
      · intro rid room' hr' p hp
        by_cases hx : rid = c.rid
        · rw [hx, mupd_self] at hr'
          cases hr'
        · rw [mupd_ne _ _ hx] at hr'
          obtain ⟨c0, hc0, hcc, hcr⟩ := hw.partClient rid room' hr' p hp
          exact ⟨c0, by
            rw [clientUpd_ne _ _ (ne_k_of_other_room hw hk hr' hx hp)]
            exact hc0, hcc, hcr⟩
      · exact cidInj_clear hw k
      · exact cidLt_clear hw k
    · rw [removeClientFromRoom_cons hr he]
      constructor <;> dsimp only
      · show mupd h.rooms c.rid _ "" = none
        rw [mupd_ne _ _ (fun q => hrne q.symm)]
        exact hw.noEmptyRid
      · intro rid room' hr'
        by_cases hx : rid = c.rid
        · rw [hx, mupd_self] at hr'
          rw [← Option.some.inj hr']
          exact keysNodup_pdel (hw.partNodup c.rid room hr)
        · rw [mupd_ne _ _ hx] at hr'
          exact hw.partNodup rid room' hr'
      · intro rid room' hr'
        by_cases hx : rid = c.rid
        · rw [hx, mupd_self] at hr'
          rw [← Option.some.inj hr']
          exact le_trans (length_pdel_le k room.participants) (hw.partLe2 c.rid room hr)
        · rw [mupd_ne _ _ hx] at hr'
          exact hw.partLe2 rid room' hr'
      · intro rid room' hr'
        by_cases hx : rid = c.rid
        · rw [hx, mupd_self] at hr'
          rw [← Option.some.inj hr']
          exact he
        · rw [mupd_ne _ _ hx] at hr'
          exact hw.partNe rid room' hr'
      · intro rid room' hr'
        by_cases hx : rid = c.rid
        · rw [hx, mupd_self] at hr'
          rw [← Option.some.inj hr']
          by_cases hh : room.hostCID = c.cid
          · obtain ⟨p0, hp0h, hp0m⟩ := head?_mem_of_ne_nil he
            refine ⟨p0, hp0m, ?_⟩
            show (if room.hostCID = c.cid then _ else room.hostCID) = some p0.2
            rw [if_pos hh, hp0h]
            rfl
          · obtain ⟨p, hpm, hph⟩ := hw.hostMem c.rid room hr
            refine ⟨p, host_witness_survives hw hk hr hh hpm hph, ?_⟩
            show (if room.hostCID = c.cid then _ else room.hostCID) = some p.2
            rw [if_neg hh]
            exact hph
        · rw [mupd_ne _ _ hx] at hr'
          exact hw.hostMem rid room' hr'
      · intro rid room' hr' p hp
        by_cases hx : rid = c.rid
        · rw [hx, mupd_self] at hr'
          rw [← Option.some.inj hr'] at hp
          have hp' : p ∈ room.participants ∧ p.1 ≠ k := mem_pdel.mp hp
          obtain ⟨c0, hc0, hcc, hcr⟩ := hw.partClient c.rid room hr p hp'.1
          refine ⟨c0, ?_, hcc, by rw [hx]; exact hcr⟩
          rw [clientUpd_ne _ _ hp'.2]
          exact hc0
        · rw [mupd_ne _ _ hx] at hr'
          obtain ⟨c0, hc0, hcc, hcr⟩ := hw.partClient rid room' hr' p hp
          exact ⟨c0, by
            rw [clientUpd_ne _ _ (ne_k_of_other_room hw hk hr' hx hp)]
            exact hc0, hcc, hcr⟩
      · exact cidInj_clear hw k
      · exact cidLt_clear hw k



/-! ### Preservation for leave, end_room, relay, watch_rooms, disconnect -/

theorem WF_handleLeave {h : Hub} {k : Nat} {c : ClientSt}
    (hw : WF h) (hk : h.clients k = some c) : WF (handleLeave h k c).1 := by
  unfold handleLeave
  by_cases hq : c.rid = ""
  · rw [if_pos hq]
    exact hw
  · rw [if_neg hq]
    exact WF_removeClientFromRoom hw hk

theorem WF_handleEndRoom {h : Hub} {k : Nat} {c : ClientSt}
    (hw : WF h) : WF (handleEndRoom h k c).1 := by
  unfold handleEndRoom
  by_cases hq : c.rid = ""
  · rw [if_pos hq]
    exact hw
  · rw [if_neg hq]
    match hr : h.rooms c.rid with
    | none => exact hw
    | some room =>
      dsimp only
      by_cases hh : room.hostCID ≠ c.cid
      · rw [if_pos hh]
        exact hw
      · rw [if_neg hh]
        have hrne : c.rid ≠ "" := hq
        constructor <;> dsimp only
        · rw [mupd_ne _ _ (fun q => hrne q.symm)]
          exact hw.noEmptyRid
        · intro rid room' hr'
          by_cases hx : rid = c.rid
          · rw [hx, mupd_self] at hr'
            cases hr'
          · rw [mupd_ne _ _ hx] at hr'
            exact hw.partNodup rid room' hr'
        · intro rid room' hr'
          by_cases hx : rid = c.rid
          · rw [hx, mupd_self] at hr'
            cases hr'
          · rw [mupd_ne _ _ hx] at hr'
            exact hw.partLe2 rid room' hr'
        · intro rid room' hr'
          by_cases hx : rid = c.rid
          · rw [hx, mupd_self] at hr'
            cases hr'
          · rw [mupd_ne _ _ hx] at hr'
            exact hw.partNe rid room' hr'
        · intro rid room' hr'
          by_cases hx : rid = c.rid
          · rw [hx, mupd_self] at hr'
            cases hr'
          · rw [mupd_ne _ _ hx] at hr'
            exact hw.hostMem rid room' hr'
        · intro rid room' hr' p hp
          by_cases hx : rid = c.rid
          · rw [hx, mupd_self] at hr'
            cases hr'
          · rw [mupd_ne _ _ hx] at hr'
            exact hw.partClient rid room' hr' p hp
        · exact hw.cidInj
        · exact hw.cidLt

theorem handleRelay_state {h : Hub} {k : Nat} {c : ClientSt} {kind : RelayKind}
    {toCid : Option Nat} {pl : RPayload} {mrid : String} {r : Hub × List Send}
    (hr : handleRelay h k c kind toCid pl mrid = some r) : r.1 = h := by
  unfold handleRelay at hr
  by_cases hq : c.rid = ""
  · rw [if_pos hq] at hr
    cases hr
    rfl
  · rw [if_neg hq] at hr
    match hro : h.rooms c.rid with
    | none =>
      rw [hro] at hr
      cases hr
      rfl
    | some room =>
      rw [hro] at hr
      dsimp only at hr
      by_cases hm : (plookup k room.participants).isNone
      · rw [if_pos hm] at hr
        cases hr
        rfl
      · rw [if_neg hm] at hr
        match hobj : relayObj pl with
        | none =>
          rw [hobj] at hr
          cases hr
        | some fs =>
          rw [hobj] at hr
          dsimp only at hr
          cases hr
          rfl

theorem watch_foldl_fields (vr : String → RidCheck) (k : Nat) (rids : List String) :
    ∀ acc : Hub × List (String × Nat),
      ((rids.foldl (watchStep vr k) acc).1.rooms = acc.1.rooms ∧
       (rids.foldl (watchStep vr k) acc).1.clients = acc.1.clients ∧
       (rids.foldl (watchStep vr k) acc).1.nextCid = acc.1.nextCid) := by
  induction rids with
  | nil => intro acc; exact ⟨rfl, rfl, rfl⟩
  | cons rid rest ih =>
    intro acc
    rw [List.foldl_cons]
    refine ⟨?_, ?_, ?_⟩ <;>
    · rcases ih (watchStep vr k acc rid) with ⟨h1, h2, h3⟩
      first
      | rw [h1] | rw [h2] | rw [h3]
      unfold watchStep
      by_cases hv : vr rid = RidCheck.ok
      · rw [if_pos hv]
      · rw [if_neg hv]

theorem WF_handleWatchRooms {h : Hub} (hw : WF h) (vr : String → RidCheck) (k : Nat)
    (rids : List String) : WF (handleWatchRooms vr h k rids).1 := by
  unfold handleWatchRooms
  rcases watch_foldl_fields vr k rids (h, []) with ⟨h1, h2, h3⟩
  exact WF_fields h1 h2 h3 hw

/-- Erasing a client that is not a participant of any room preserves the
invariant. -/
theorem WF_eraseClient {h : Hub} (hw : WF h) {k : Nat}
    (hknp : ∀ rid room p, h.rooms rid = some room → p ∈ room.participants → p.1 ≠ k) :
    WF { h with clients := fun x => if x = k then none else h.clients x } := by
  constructor <;> dsimp only
  · exact hw.noEmptyRid
  · exact hw.partNodup
  · exact hw.partLe2
  · exact hw.partNe
  · exact hw.hostMem
  · intro rid room hr p hp
    obtain ⟨c0, hc0, hcc, hcr⟩ := hw.partClient rid room hr p hp
    refine ⟨c0, ?_, hcc, hcr⟩
    rw [if_neg (hknp rid room p hr hp)]
    exact hc0
  · intro k1 k2 c1 c2 a h1 h2 hc1 hc2
    by_cases e1 : k1 = k
    · rw [if_pos e1] at h1
      cases h1
    · by_cases e2 : k2 = k
      · rw [if_pos e2] at h2
        cases h2
      · rw [if_neg e1] at h1
        rw [if_neg e2] at h2
        exact hw.cidInj k1 k2 c1 c2 a h1 h2 hc1 hc2
  · intro k1 c1 a h1 hc1
    by_cases e1 : k1 = k
    · rw [if_pos e1] at h1
      cases h1
    · rw [if_neg e1] at h1
      exact hw.cidLt k1 c1 a h1 hc1

theorem WF_disconnectClient {h : Hub} (hw : WF h) (k : Nat) :
    WF (disconnectClient h k).1 := by
  unfold disconnectClient
  match hk : h.clients k with
  | none => exact hw
  | some c =>
    dsimp only
    by_cases hq : c.rid ≠ ""
    · rw [if_pos hq]
      -- h1: the client erased and the watcher sets filtered; h2 puts the
      -- record back. removeClientFromRoom never reads the registry entry
      -- of k itself, so both runs mutate the rooms identically.
      set h1 : Hub := { h with
        clients := fun x => if x = k then none else h.clients x,
        watchers := fun r => (h.watchers r).filter (fun w => decide (w ≠ k)) } with hh1
      set h2 : Hub := { h1 with clients := h.clients } with hh2
      have hw2 : WF h2 := WF_fields (show h2.rooms = h.rooms from rfl)
        (show h2.clients = h.clients from rfl) (show h2.nextCid = h.nextCid from rfl) hw
      have hk2 : h2.clients k = some c := hk
      match hr : h1.rooms c.rid with
      | none =>
        rw [removeClientFromRoom_noRoom hr]
        have hknp : ∀ rid room p, h.rooms rid = some room → p ∈ room.participants → p.1 ≠ k :=
          hw.notParticipant hk (Or.inr hr)
        refine WF_fields ?_ ?_ ?_ (WF_eraseClient hw hknp) <;> rfl
      | some room =>
        have hr2 : h2.rooms c.rid = some room := hr
        have hwr : WF (removeClientFromRoom h2 k c).1 := WF_removeClientFromRoom hw2 hk2
        have hknp2 : ∀ rid room' p, (removeClientFromRoom h2 k c).1.rooms rid = some room' →
            p ∈ room'.participants → p.1 ≠ k := by
          by_cases he : pdel k room.participants = []
          · rw [removeClientFromRoom_empty hr2 he]
            dsimp only
            intro rid room' p hrx hp
            by_cases hxx : rid = c.rid
            · rw [hxx, mupd_self] at hrx
              cases hrx
            · rw [mupd_ne _ _ hxx] at hrx
              exact ne_k_of_other_room hw hk hrx hxx hp
          · rw [removeClientFromRoom_cons hr2 he]
            dsimp only
            intro rid room' p hrx hp
            by_cases hxx : rid = c.rid
            · rw [hxx, mupd_self] at hrx
              rw [← Option.some.inj hrx] at hp
              exact (mem_pdel.mp hp).2
            · rw [mupd_ne _ _ hxx] at hrx
              exact ne_k_of_other_room hw hk hrx hxx hp
        have hfin := WF_eraseClient hwr hknp2
        refine WF_fields ?_ ?_ ?_ hfin
        · by_cases he : pdel k room.participants = []
          · rw [removeClientFromRoom_empty hr he, removeClientFromRoom_empty hr2 he]
          · rw [removeClientFromRoom_cons hr he, removeClientFromRoom_cons hr2 he]
        · by_cases he : pdel k room.participants = []
          · rw [removeClientFromRoom_empty hr he, removeClientFromRoom_empty hr2 he]
            dsimp only
            funext x
            by_cases hx : x = k
            · subst hx
              simp [clientUpd, hh1]
            · simp [clientUpd_ne _ _ hx, hh2, hh1, hx]
          · rw [removeClientFromRoom_cons hr he, removeClientFromRoom_cons hr2 he]
            dsimp only
            funext x
            by_cases hx : x = k
            · subst hx
              simp [clientUpd, hh1]
            · simp [clientUpd_ne _ _ hx, hh2, hh1, hx]
        · by_cases he : pdel k room.participants = []
          · rw [removeClientFromRoom_empty hr he, removeClientFromRoom_empty hr2 he]
          · rw [removeClientFromRoom_cons hr he, removeClientFromRoom_cons hr2 he]
    · rw [if_neg hq]
      have hq' : c.rid = "" := by
        by_contra hcon
        exact hq hcon
      have hknp : ∀ rid room p, h.rooms rid = some room → p ∈ room.participants → p.1 ≠ k :=
        hw.notParticipant hk (Or.inl hq')
      refine WF_fields ?_ ?_ ?_ (WF_eraseClient hw hknp) <;> rfl

theorem handleJoin_emptyRid {vr : String → RidCheck} {h : Hub} {k : Nat} {c : ClientSt}
    {reconnect : Option Nat} :
    handleJoin vr h k c "" reconnect = (h, [(k, OutMsg.errorMsg "" "BAD_REQUEST")]) := by
  unfold handleJoin
  rw [if_pos rfl]

theorem handleJoin_notConfigured {vr : String → RidCheck} {h : Hub} {k : Nat} {c : ClientSt}
    {rid : String} {reconnect : Option Nat}
    (hrne : rid ≠ "") (hvr : vr rid = .notConfigured) :
    handleJoin vr h k c rid reconnect = (h, [(k, OutMsg.errorMsg rid "SERVER_NOT_CONFIGURED")]) := by
  unfold handleJoin
  rw [if_neg hrne, hvr]

theorem handleJoin_invalid {vr : String → RidCheck} {h : Hub} {k : Nat} {c : ClientSt}
    {rid : String} {reconnect : Option Nat}
    (hrne : rid ≠ "") (hvr : vr rid = .invalidRid) :
    handleJoin vr h k c rid reconnect = (h, [(k, OutMsg.errorMsg rid "INVALID_ROOM_ID")]) := by
  unfold handleJoin
  rw [if_neg hrne, hvr]

theorem handleJoin_fresh {vr : String → RidCheck} {h : Hub} {k : Nat} {c : ClientSt}
    {rid : String} {reconnect : Option Nat}
    (hrne : rid ≠ "") (hvr : vr rid = .ok) (hr : h.rooms rid = none) :
    handleJoin vr h k c rid reconnect =
      joinInsert { h with rooms := mupd h.rooms rid (some ⟨[], none⟩) } k rid reconnect
        false ⟨[], none⟩ [] := by
  unfold handleJoin
  rw [if_neg hrne, hvr]
  dsimp only
  rw [hr]
  dsimp only
  rw [mupd_self]
  dsimp only [Option.getD_some]
  cases reconnect with
  | none =>
    dsimp only
    rw [if_neg (by simp)]
  | some rc =>
    dsimp only [List.find?]
    rw [if_neg (by simp)]

theorem handleJoin_noghost_open {vr : String → RidCheck} {h : Hub} {k : Nat} {c : ClientSt}
    {rid : String} {reconnect : Option Nat} {room : Room}
    (hrne : rid ≠ "") (hvr : vr rid = .ok) (hr : h.rooms rid = some room)
    (hng : ∀ rc, reconnect = some rc →
      room.participants.find? (fun p => decide (p.2 = rc)) = none)
    (hcap : room.participants.length < 2) :
    handleJoin vr h k c rid reconnect = joinInsert h k rid reconnect false room [] := by
  unfold handleJoin
  rw [if_neg hrne, hvr]
  dsimp only
  rw [hr]
  dsimp only
  rw [hr]
  dsimp only [Option.getD_some]
  cases reconnect with
  | none =>
    dsimp only
    rw [if_neg (by omega)]
  | some rc =>
    dsimp only
    rw [hng rc rfl]
    dsimp only
    rw [if_neg (by omega)]

theorem handleJoin_noghost_full {vr : String → RidCheck} {h : Hub} {k : Nat} {c : ClientSt}
    {rid : String} {reconnect : Option Nat} {room : Room}
    (hrne : rid ≠ "") (hvr : vr rid = .ok) (hr : h.rooms rid = some room)
    (hng : ∀ rc, reconnect = some rc →
      room.participants.find? (fun p => decide (p.2 = rc)) = none)
    (hcap : room.participants.length ≥ 2) :
    handleJoin vr h k c rid reconnect = (h, [(k, OutMsg.errorMsg rid "ROOM_FULL")]) := by
  unfold handleJoin
  rw [if_neg hrne, hvr]
  dsimp only
  rw [hr]
  dsimp only
  rw [hr]
  dsimp only [Option.getD_some]
  cases reconnect with
  | none =>
    dsimp only
    rw [if_pos hcap]
    try dsimp only
    rw [if_pos (by exact ⟨Bool.false_ne_true, hcap⟩)]
    rw [List.nil_append]
  | some rc =>
    dsimp only
    rw [hng rc rfl]
    dsimp only
    rw [if_pos hcap]
    try dsimp only
    rw [hng rc rfl]
    try dsimp only
    rw [if_pos (by exact ⟨Bool.false_ne_true, hcap⟩)]
    rw [List.nil_append]

theorem handleJoin_ghost {vr : String → RidCheck} {h : Hub} {k : Nat} {c : ClientSt}
    {rid : String} {reconnect : Option Nat} {room : Room} {rc : Nat} {g : Nat × Nat}
    (hrne : rid ≠ "") (hvr : vr rid = .ok) (hr : h.rooms rid = some room)
    (hrc : reconnect = some rc)
    (hfind : room.participants.find? (fun p => decide (p.2 = rc)) = some g)
    (hlt : (pdel g.1 room.participants).length < 2) :
    handleJoin vr h k c rid reconnect =
      joinInsert { h with
          rooms := mupd h.rooms rid (some ⟨pdel g.1 room.participants, room.hostCID⟩),
          clients := clientUpd h.clients g.1 ⟨none, ""⟩ }
        k rid reconnect true ⟨pdel g.1 room.participants, room.hostCID⟩ [] := by
  unfold handleJoin
  rw [if_neg hrne, hvr]
  dsimp only
  rw [hr]
  dsimp only
  rw [hr]
  dsimp only [Option.getD_some]
  rw [hrc]
  dsimp only
  rw [hfind]
  dsimp only
  rw [if_neg (by omega)]

theorem keysNodup_cons {l : List (Nat × Nat)} {k cid : Nat}
    (hn : keysNodup l) (hk : ∀ p ∈ l, p.1 ≠ k) : keysNodup ((k, cid) :: l) := by
  rw [keysNodup, List.map_cons, List.nodup_cons]
  constructor
  · intro hmem
    obtain ⟨p, hp, hpe⟩ := List.mem_map.mp hmem
    exact hk p hp hpe
  · exact hn

theorem WF_joinInsert {h : Hub} {k : Nat} {rid : String} {reconnect : Option Nat}
    {reused : Bool} {room : Room} {tr : List Send} {c : ClientSt}
    (hkc : h.clients k = some c)
    (hreg : h.rooms rid = some room)
    (hrne : rid ≠ "")
    (hlen : room.participants.length ≤ 1)
    (hnE : h.rooms "" = none)
    (hNodup : ∀ rid' room', h.rooms rid' = some room' → keysNodup room'.participants)
    (hLe2 : ∀ rid' room', h.rooms rid' = some room' → room'.participants.length ≤ 2)
    (hNe : ∀ rid' room', rid' ≠ rid → h.rooms rid' = some room' → room'.participants ≠ [])
    (hHost : ∀ rid' room', rid' ≠ rid → h.rooms rid' = some room' →
        ∃ p, p ∈ room'.participants ∧ room'.hostCID = some p.2)
    (hPC : ∀ rid' room', h.rooms rid' = some room' → ∀ p, p ∈ room'.participants →
        ∃ c0, h.clients p.1 = some c0 ∧ c0.cid = some p.2 ∧ c0.rid = rid')
    (hInj : ∀ k1 k2 c1 c2 a, h.clients k1 = some c1 → h.clients k2 = some c2 →
        c1.cid = some a → c2.cid = some a → k1 = k2)
    (hLt : ∀ k1 c1 a, h.clients k1 = some c1 → c1.cid = some a → a < h.nextCid)
    (hknp : ∀ rid' room' p, h.rooms rid' = some room' → p ∈ room'.participants → p.1 ≠ k)
    (hhost : room.hostCID = none ∨ (∃ p, p ∈ room.participants ∧ room.hostCID = some p.2) ∨
        (∃ rc, reused = true ∧ reconnect = some rc ∧ room.hostCID = some rc))
    (hnotin : ∀ k1 c1, h.clients k1 = some c1 →
        c1.cid ≠ some (joinCid reused reconnect h.nextCid))
    (hlt2 : joinCid reused reconnect h.nextCid < h.nextCid + 1) :
    WF (joinInsert h k rid reconnect reused room tr).1 := by
  have hnoK : ∀ p ∈ room.participants, p.1 ≠ k := fun p hp => hknp rid room p hreg hp
  unfold joinInsert
  dsimp only
  rw [show pset k (joinCid reused reconnect h.nextCid) room.participants =
      (k, joinCid reused reconnect h.nextCid) :: room.participants from by
    rw [pset, pdel_eq_self hnoK]]
  constructor <;> dsimp only
  · rw [mupd_ne _ _ (fun q => hrne q.symm)]
    exact hnE
  · intro rid' room' hr'
    by_cases hx : rid' = rid
    · rw [hx, mupd_self] at hr'
      rw [← Option.some.inj hr']
      exact keysNodup_cons (hNodup rid room hreg) hnoK
    · rw [mupd_ne _ _ hx] at hr'
      exact hNodup rid' room' hr'
  · intro rid' room' hr'
    by_cases hx : rid' = rid
    · rw [hx, mupd_self] at hr'
      rw [← Option.some.inj hr']
      simp only [List.length_cons]
      omega
    · rw [mupd_ne _ _ hx] at hr'
      exact hLe2 rid' room' hr'
  · intro rid' room' hr'
    by_cases hx : rid' = rid
    · rw [hx, mupd_self] at hr'
      rw [← Option.some.inj hr']
      exact List.cons_ne_nil _ _
    · rw [mupd_ne _ _ hx] at hr'
      exact hNe rid' room' hx hr'
  · intro rid' room' hr'
    by_cases hx : rid' = rid
    · rw [hx, mupd_self] at hr'
      rw [← Option.some.inj hr']
      rcases hhost with h0 | ⟨p, hm, hh⟩ | ⟨rc, hru, hrc, hx2⟩
      · refine ⟨(k, joinCid reused reconnect h.nextCid), List.mem_cons_self _ _, ?_⟩
        dsimp only
        rw [h0]
      · refine ⟨p, List.mem_cons_of_mem _ hm, ?_⟩
        dsimp only
        rw [hh]
      · refine ⟨(k, joinCid reused reconnect h.nextCid), List.mem_cons_self _ _, ?_⟩
        dsimp only
        rw [hx2, hru, hrc]
        simp only [joinCid]
    · rw [mupd_ne _ _ hx] at hr'
      exact hHost rid' room' hx hr'
  · intro rid' room' hr' p hp
    by_cases hx : rid' = rid
    · rw [hx, mupd_self] at hr'
      rw [← Option.some.inj hr'] at hp
      rcases List.mem_cons.mp hp with he | hm
      · refine ⟨⟨some (joinCid reused reconnect h.nextCid), rid⟩, ?_, ?_, ?_⟩
        · rw [he]
          exact clientUpd_self_of_some _ hkc
        · rw [he]
        · rw [hx]
      · obtain ⟨c0, hc0, hcc, hcr⟩ := hPC rid room hreg p hm
        refine ⟨c0, ?_, hcc, by rw [hx, hcr]⟩
        rw [clientUpd_ne _ _ (hnoK p hm)]
        exact hc0
    · rw [mupd_ne _ _ hx] at hr'
      obtain ⟨c0, hc0, hcc, hcr⟩ := hPC rid' room' hr' p hp
      refine ⟨c0, ?_, hcc, hcr⟩
      rw [clientUpd_ne _ _ (hknp rid' room' p hr' hp)]
      exact hc0
  · intro k1 k2 c1 c2 a h1 h2 hc1 hc2
    rcases clientUpd_some_cases h1 with ⟨e1, rfl⟩ | ⟨e1, hf1⟩
    · rcases clientUpd_some_cases h2 with ⟨e2, rfl⟩ | ⟨e2, hf2⟩
      · rw [e1, e2]
      · have ha : a = joinCid reused reconnect h.nextCid := (Option.some.inj hc1).symm
        exact absurd (show c2.cid = some (joinCid reused reconnect h.nextCid) from by
          rw [← ha]
          exact hc2) (hnotin k2 c2 hf2)
    · rcases clientUpd_some_cases h2 with ⟨e2, rfl⟩ | ⟨e2, hf2⟩
      · have ha : a = joinCid reused reconnect h.nextCid := (Option.some.inj hc2).symm
        exact absurd (show c1.cid = some (joinCid reused reconnect h.nextCid) from by
          rw [← ha]
          exact hc1) (hnotin k1 c1 hf1)
      · exact hInj k1 k2 c1 c2 a hf1 hf2 hc1 hc2
  · intro k1 c1 a h1 hc1
    rcases clientUpd_some_cases h1 with ⟨e1, rfl⟩ | ⟨e1, hf1⟩
    · have ha : a = joinCid reused reconnect h.nextCid := (Option.some.inj hc1).symm
      rw [ha]
      exact hlt2
    · exact Nat.lt_succ_of_lt (hLt k1 c1 a hf1 hc1)



theorem joinCid_false (reconnect : Option Nat) (m : Nat) : joinCid false reconnect m = m := by
  cases reconnect <;> rfl

theorem joinCid_reuse (rc : Nat) (m : Nat) : joinCid true (some rc) m = rc := rfl

theorem WF_handleJoin {vr : String → RidCheck} {h : Hub} {k : Nat} {c : ClientSt}
    {rid : String} {reconnect : Option Nat}
    (hw : WF h) (hkc : h.clients k = some c)
    (hknp : ∀ rid' room' p, h.rooms rid' = some room' → p ∈ room'.participants → p.1 ≠ k) :
    WF (handleJoin vr h k c rid reconnect).1 := by
  by_cases hrne : rid = ""
  · subst hrne
    rw [handleJoin_emptyRid]
    exact hw
  match hvr : vr rid with
  | .notConfigured =>
    rw [handleJoin_notConfigured hrne hvr]
    exact hw
  | .invalidRid =>
    rw [handleJoin_invalid hrne hvr]
    exact hw
  | .ok =>
    match hr : h.rooms rid with
    | none =>
      rw [handleJoin_fresh hrne hvr hr]
      refine WF_joinInsert (show _ = some c from hkc) ?_ hrne ?_ ?_ ?_ ?_ ?_ ?_ ?_ ?_ ?_ ?_ ?_ ?_ ?_
      · exact mupd_self _ _ _
      · simp
      · show mupd h.rooms rid (some ⟨[], none⟩) "" = none
        rw [mupd_ne _ _ (fun q => hrne q.symm)]
        exact hw.noEmptyRid
      · try dsimp only
        intro rid' room' hr'
        by_cases hx : rid' = rid
        · rw [hx, mupd_self] at hr'
          rw [← Option.some.inj hr']
          exact List.nodup_nil
        · rw [mupd_ne _ _ hx] at hr'
          exact hw.partNodup rid' room' hr'
      · try dsimp only
        intro rid' room' hr'
        by_cases hx : rid' = rid
        · rw [hx, mupd_self] at hr'
          rw [← Option.some.inj hr']
          simp
        · rw [mupd_ne _ _ hx] at hr'
          exact hw.partLe2 rid' room' hr'
      · try dsimp only
        intro rid' room' hx hr'
        rw [mupd_ne _ _ hx] at hr'
        exact hw.partNe rid' room' hr'
      · try dsimp only
        intro rid' room' hx hr'
        rw [mupd_ne _ _ hx] at hr'
        exact hw.hostMem rid' room' hr'
      · try dsimp only
        intro rid' room' hr' p hp
        by_cases hx : rid' = rid
        · rw [hx, mupd_self] at hr'
          rw [← Option.some.inj hr'] at hp
          cases hp
        · rw [mupd_ne _ _ hx] at hr'
          exact hw.partClient rid' room' hr' p hp
      · exact hw.cidInj
      · exact hw.cidLt
      · try dsimp only
        intro rid' room' p hr' hp
        by_cases hx : rid' = rid
        · rw [hx, mupd_self] at hr'
          rw [← Option.some.inj hr'] at hp
          cases hp
        · rw [mupd_ne _ _ hx] at hr'
          exact hknp rid' room' p hr' hp
      · exact Or.inl rfl
      · try dsimp only
        intro k1 c1 hc1 hq
        rw [joinCid_false] at hq
        have := hw.cidLt k1 c1 _ hc1 hq
        omega
      · rw [joinCid_false]
        omega
    | some room =>
      have hng_of_none : ∀ rc', (none : Option Nat) = some rc' →
          room.participants.find? (fun p => decide (p.2 = rc')) = none := by
        intro rc' hq
        cases hq
      match reconnect with
      | none =>
        by_cases hcap : room.participants.length ≥ 2
        · rw [handleJoin_noghost_full hrne hvr hr hng_of_none hcap]
          exact hw
        · rw [handleJoin_noghost_open hrne hvr hr hng_of_none (by omega)]
          refine WF_joinInsert (show _ = some c from hkc) hr hrne (by omega) hw.noEmptyRid
            hw.partNodup hw.partLe2 ?_ ?_ hw.partClient hw.cidInj hw.cidLt hknp ?_ ?_ ?_
          · try dsimp only
            intro rid' room' _ hr'
            exact hw.partNe rid' room' hr'
          · try dsimp only
            intro rid' room' _ hr'
            exact hw.hostMem rid' room' hr'
          · exact Or.inr (Or.inl (hw.hostMem rid room hr))
          · try dsimp only
            intro k1 c1 hc1 hq
            rw [joinCid_false] at hq
            have := hw.cidLt k1 c1 _ hc1 hq
            omega
          · rw [joinCid_false]
            omega
      | some rc =>
        match hfind : room.participants.find? (fun p => decide (p.2 = rc)) with
        | none =>
          have hng : ∀ rc', (some rc : Option Nat) = some rc' →
              room.participants.find? (fun p => decide (p.2 = rc')) = none := by
            intro rc' hq
            rw [← Option.some.inj hq]
            exact hfind
          by_cases hcap : room.participants.length ≥ 2
          · rw [handleJoin_noghost_full hrne hvr hr hng hcap]
            exact hw
          · rw [handleJoin_noghost_open hrne hvr hr hng (by omega)]
            refine WF_joinInsert (show _ = some c from hkc) hr hrne (by omega) hw.noEmptyRid
              hw.partNodup hw.partLe2 ?_ ?_ hw.partClient hw.cidInj hw.cidLt hknp ?_ ?_ ?_
            · try dsimp only
              intro rid' room' _ hr'
              exact hw.partNe rid' room' hr'
            · try dsimp only
              intro rid' room' _ hr'
              exact hw.hostMem rid' room' hr'
            · exact Or.inr (Or.inl (hw.hostMem rid room hr))
            · try dsimp only
              intro k1 c1 hc1 hq
              rw [joinCid_false] at hq
              have := hw.cidLt k1 c1 _ hc1 hq
              omega
            · rw [joinCid_false]
              omega
        | some g =>
          obtain ⟨hgm, hgrc⟩ := find?_cid_some hfind
          obtain ⟨cg, hcg, hcgc, hcgr⟩ := hw.partClient rid room hr g hgm
          have hkg : k ≠ g.1 := fun q => (hknp rid room g hr hgm) q.symm
          have hlt : (pdel g.1 room.participants).length < 2 := by
            have h1 : (pdel g.1 room.participants).length < room.participants.length :=
              length_pdel_lt (show (g.1, g.2) ∈ room.participants by simpa using hgm)
            have h2 := hw.partLe2 rid room hr
            omega
          rw [handleJoin_ghost hrne hvr hr rfl hfind hlt]
          refine WF_joinInsert (show clientUpd h.clients g.1 ⟨none, ""⟩ k = some c from by
              rw [clientUpd_ne _ _ hkg]
              exact hkc) ?_ hrne (by dsimp only; omega) ?_ ?_ ?_ ?_ ?_ ?_ ?_ ?_ ?_ ?_ ?_ ?_
          · exact mupd_self _ _ _
          · show mupd h.rooms rid _ "" = none
            rw [mupd_ne _ _ (fun q => hrne q.symm)]
            exact hw.noEmptyRid
          · try dsimp only
            intro rid' room' hr'
            by_cases hx : rid' = rid
            · rw [hx, mupd_self] at hr'
              rw [← Option.some.inj hr']
              exact keysNodup_pdel (hw.partNodup rid room hr)
            · rw [mupd_ne _ _ hx] at hr'
              exact hw.partNodup rid' room' hr'
          · try dsimp only
            intro rid' room' hr'
            by_cases hx : rid' = rid
            · rw [hx, mupd_self] at hr'
              rw [← Option.some.inj hr']
              dsimp only
              omega
            · rw [mupd_ne _ _ hx] at hr'
              exact hw.partLe2 rid' room' hr'
          · try dsimp only
            intro rid' room' hx hr'
            rw [mupd_ne _ _ hx] at hr'
            exact hw.partNe rid' room' hr'
          · try dsimp only
            intro rid' room' hx hr'
            rw [mupd_ne _ _ hx] at hr'
            exact hw.hostMem rid' room' hr'
          · try dsimp only
            intro rid' room' hr' p hp
            by_cases hx : rid' = rid
            · rw [hx, mupd_self] at hr'
              rw [← Option.some.inj hr'] at hp
              dsimp only at hp
              have hp' := mem_pdel.mp hp
              obtain ⟨c0, hc0, hcc, hcr⟩ := hw.partClient rid room hr p hp'.1
              refine ⟨c0, ?_, hcc, by rw [hx, hcr]⟩
              rw [clientUpd_ne _ _ hp'.2]
              exact hc0
            · rw [mupd_ne _ _ hx] at hr'
              obtain ⟨c0, hc0, hcc, hcr⟩ := hw.partClient rid' room' hr' p hp
              refine ⟨c0, ?_, hcc, hcr⟩
              have hpg : p.1 ≠ g.1 :=
                ne_k_of_other_room hw hcg hr' (by rw [hcgr]; exact hx) hp
              rw [clientUpd_ne _ _ hpg]
              exact hc0
          · exact cidInj_clear hw g.1
          · exact cidLt_clear hw g.1
          · try dsimp only
            intro rid' room' p hr' hp
            by_cases hx : rid' = rid
            · rw [hx, mupd_self] at hr'
              rw [← Option.some.inj hr'] at hp
              dsimp only at hp
              exact hknp rid room p hr (mem_pdel.mp hp).1
            · rw [mupd_ne _ _ hx] at hr'
              exact hknp rid' room' p hr' hp
          · show Room.hostCID ⟨pdel g.1 room.participants, room.hostCID⟩ = none ∨ _ ∨ _
            dsimp only
            obtain ⟨p, hpm, hph⟩ := hw.hostMem rid room hr
            by_cases hpg : p.1 = g.1
            · have hpv : p.2 = g.2 := eq_of_mem_keysNodup (hw.partNodup rid room hr)
                (show (g.1, p.2) ∈ room.participants by rw [← hpg]; simpa using hpm)
                (show (g.1, g.2) ∈ room.participants by simpa using hgm)
            
              exact Or.inr (Or.inr ⟨rc, rfl, rfl, by rw [hph, hpv, hgrc]⟩)
            · exact Or.inr (Or.inl ⟨p, mem_pdel.mpr ⟨hpm, hpg⟩, hph⟩)
          · try dsimp only
            intro k1 c1 hc1 hq
            rw [joinCid_reuse] at hq
            rcases clientUpd_some_cases hc1 with ⟨e1, rfl⟩ | ⟨e1, hf1⟩
            · cases hq
            · have : k1 = g.1 := hw.cidInj k1 g.1 c1 cg rc hf1 hcg hq (by rw [hcgc, hgrc])
              exact e1 this
          · rw [joinCid_reuse]
            dsimp only
            have := hw.cidLt g.1 cg g.2 hcg hcgc
            omega



theorem WF_execJoin {vr : String → RidCheck} {h : Hub} {k : Nat} {rid : String}
    {reconnect : Option Nat} (hw : WF h) : WF (execJoin vr h k rid reconnect).1 := by
  unfold execJoin
  match hk : h.clients k with
  | none => exact hw
  | some c =>
    dsimp only
    by_cases hq : c.rid ≠ ""
    · rw [if_pos hq]
      match hr : h.rooms c.rid with
      | none =>
        rw [removeClientFromRoom_noRoom hr]
        dsimp only
        rw [hk]
        dsimp only
        exact WF_handleJoin hw hk (hw.notParticipant hk (Or.inr hr))
      | some room =>
        have hw1 : WF (removeClientFromRoom h k c).1 := WF_removeClientFromRoom hw hk
        have hck : (removeClientFromRoom h k c).1.clients k = some ⟨none, ""⟩ := by
          by_cases he : pdel k room.participants = []
          · rw [removeClientFromRoom_empty hr he]
            dsimp only
            exact clientUpd_self_of_some _ hk
          · rw [removeClientFromRoom_cons hr he]
            dsimp only
            exact clientUpd_self_of_some _ hk
        rw [hck]
        dsimp only
        exact WF_handleJoin hw1 hck (hw1.notParticipant hck (Or.inl rfl))
    · rw [if_neg hq]
      have hq' : c.rid = "" := not_not.mp hq
      dsimp only
      rw [hk]
      dsimp only
      exact WF_handleJoin hw hk (hw.notParticipant hk (Or.inl hq'))

theorem WF_exec {vr : String → RidCheck} {h : Hub} {op : Op} {h' : Hub} {tr : List Send}
    (hw : WF h) (he : exec vr h op = some (h', tr)) : WF h' := by
  cases op with
  | connect k =>
    unfold exec at he
    dsimp only at he
    injection he with h1
    have h2 : registerClient h k = h' := congrArg Prod.fst h1
    rw [← h2]
    exact WF_registerClient hw k
  | join k rid rc =>
    unfold exec at he
    dsimp only at he
    injection he with h1
    have h2 : (execJoin vr h k rid rc).1 = h' := congrArg Prod.fst h1
    rw [← h2]
    exact WF_execJoin hw
  | leave k =>
    unfold exec at he
    dsimp only at he
    match hk : h.clients k with
    | none =>
      rw [hk] at he
      injection he with h1
      have h2 : h = h' := congrArg Prod.fst h1
      rw [← h2]
      exact hw
    | some c =>
      rw [hk] at he
      injection he with h1
      have h2 : (handleLeave h k c).1 = h' := congrArg Prod.fst h1
      rw [← h2]
      exact WF_handleLeave hw hk
  | endRoom k =>
    unfold exec at he
    dsimp only at he
    match hk : h.clients k with
    | none =>
      rw [hk] at he
      injection he with h1
      have h2 : h = h' := congrArg Prod.fst h1
      rw [← h2]
      exact hw
    | some c =>
      rw [hk] at he
      injection he with h1
      have h2 : (handleEndRoom h k c).1 = h' := congrArg Prod.fst h1
      rw [← h2]
      exact WF_handleEndRoom hw
  | relay k kind toCid pl mrid =>
    unfold exec at he
    dsimp only at he
    match hk : h.clients k with
    | none =>
      rw [hk] at he
      injection he with h1
      have h2 : h = h' := congrArg Prod.fst h1
      rw [← h2]
      exact hw
    | some c =>
      rw [hk] at he
      have h2 : h' = h := handleRelay_state he
      rw [h2]
      exact hw
  | watchRooms k rids =>
    unfold exec at he
    dsimp only at he
    match hk : h.clients k with
    | none =>
      rw [hk] at he
      injection he with h1
      have h2 : h = h' := congrArg Prod.fst h1
      rw [← h2]
      exact hw
    | some c =>
      rw [hk] at he
      injection he with h1
      have h2 : (handleWatchRooms vr h k rids).1 = h' := congrArg Prod.fst h1
      rw [← h2]
      exact WF_handleWatchRooms hw vr k rids
  | disconnect k =>
    unfold exec at he
    dsimp only at he
    injection he with h1
    have h2 : (disconnectClient h k).1 = h' := congrArg Prod.fst h1
    rw [← h2]
    exact WF_disconnectClient hw k

theorem WF_execList {vr : String → RidCheck} : ∀ (ops : List Op) (h h' : Hub),
    WF h → execList vr h ops = some h' → WF h' := by
  intro ops
  induction ops with
  | nil =>
    intro h h' hw he
    unfold execList at he
    rw [← Option.some.inj he]
    exact hw
  | cons op rest ih =>
    intro h h' hw he
    unfold execList at he
    match hx : exec vr h op with
    | none =>
      rw [hx] at he
      cases he
    | some r =>
      rw [hx] at he
      exact ih r.1 h' (WF_exec hw (show exec vr h op = some (r.1, r.2) from hx)) he




/-- C1: in every hub state reachable from the empty hub by completed
operations, every room in the registry has at most 2 participants, and its
`hostCID` is either empty or the cid of exactly one current participant. -/
theorem C1_reachable_room_capacity_and_host
    (vr : String → RidCheck) (ops : List Op) (h : Hub)
    (hreach : execList vr hub0 ops = some h) :
    ∀ rid room, h.rooms rid = some room →
      room.participants.length ≤ 2 ∧
      (room.hostCID = none ∨
        ∃ p, (p ∈ room.participants ∧ room.hostCID = some p.2) ∧
          ∀ q, q ∈ room.participants → room.hostCID = some q.2 → q = p) := by
  have hw := WF_execList ops hub0 h WF_hub0 hreach
  intro rid room hr
  refine ⟨hw.partLe2 rid room hr, Or.inr ?_⟩
  obtain ⟨p, hm, hh⟩ := hw.hostMem rid room hr
  refine ⟨p, ⟨hm, hh⟩, ?_⟩
  intro q hq hqh
  refine hw.cidDistinct hr hq hm ?_
  rw [hqh] at hh
  exact Option.some.inj hh

/-- C1 applied to the concrete reachable state of two sessions in one room. -/
theorem C1_witness :
    execList vrOk hub0 opsPair = some hubPair ∧
    (∀ rid room, hubPair.rooms rid = some room →
      room.participants.length ≤ 2 ∧
      (room.hostCID = none ∨
        ∃ p, (p ∈ room.participants ∧ room.hostCID = some p.2) ∧
          ∀ q, q ∈ room.participants → room.hostCID = some q.2 → q = p)) :=
  ⟨rfl, C1_reachable_room_capacity_and_host vrOk opsPair hubPair rfl⟩

theorem countP_roomEnded_map_zero {l : List (Nat × Nat)} {m : Nat} {msg : OutMsg}
    (hnm : ∀ p ∈ l, p.1 ≠ m) :
    ((l.map (fun p => (p.1, msg))).countP
      (fun s => decide (s.1 = m) && isRoomEnded s.2)) = 0 := by
  induction l with
  | nil => rfl
  | cons p rest ih =>
    rw [List.map_cons, List.countP_cons]
    rw [ih (fun q hq => hnm q (List.mem_cons_of_mem p hq))]
    simp [hnm p (List.mem_cons_self p rest)]

theorem countP_statusUpdate_zero (l : List Send)
    (hl : ∀ s ∈ l, isRoomEnded s.2 = false) {m : Nat} :
    (l.countP (fun s => decide (s.1 = m) && isRoomEnded s.2)) = 0 := by
  induction l with
  | nil => rfl
  | cons s rest ih =>
    rw [List.countP_cons]
    rw [ih (fun q hq => hl q (List.mem_cons_of_mem s hq))]
    simp [hl s (List.mem_cons_self s rest)]

theorem countP_roomEnded_map_one {l : List (Nat × Nat)} {m cid : Nat} {msg : OutMsg}
    (hnd : keysNodup l) (hmm : (m, cid) ∈ l) (hmsg : isRoomEnded msg = true) :
    ((l.map (fun p => (p.1, msg))).countP
      (fun s => decide (s.1 = m) && isRoomEnded s.2)) = 1 := by
  induction l with
  | nil => cases hmm
  | cons p rest ih =>
    have hn' : (p.1 ∉ rest.map Prod.fst) ∧ keysNodup rest := by
      simpa [keysNodup] using hnd
    rw [List.map_cons, List.countP_cons]
    rcases List.mem_cons.mp hmm with he | hm
    · have hpm : p.1 = m := by rw [← he]
      have hz : ((rest.map (fun p => (p.1, msg))).countP
          (fun s => decide (s.1 = m) && isRoomEnded s.2)) = 0 := by
        refine countP_roomEnded_map_zero ?_
        intro q hq hqe
        exact hn'.1 (by rw [hpm, ← hqe]; exact List.mem_map_of_mem Prod.fst hq)
      rw [hz]
      simp [hpm, hmsg]
    · have hpm : p.1 ≠ m := by
        intro hq
        apply hn'.1
        rw [hq]
        exact List.mem_map_of_mem Prod.fst hm
      rw [ih hn'.2 hm]
      simp [hpm]

/-- C3: `end_room` from a non-host sender replies `error NOT_HOST` and leaves
the hub unchanged; from the host, the room is removed from the registry,
every member session receives exactly one `room_ended` carrying the host
cid and reason `"host_ended"`. -/
theorem C3_end_room_host_only {h : Hub} {k : Nat} {c : ClientSt} {room : Room}
    (hw : WF h) (hk : h.clients k = some c) (hrne : c.rid ≠ "")
    (hroom : h.rooms c.rid = some room) :
    (room.hostCID ≠ c.cid →
      handleEndRoom h k c = (h, [(k, OutMsg.errorMsg c.rid "NOT_HOST")])) ∧
    (room.hostCID = c.cid →
      (handleEndRoom h k c).1.rooms c.rid = none ∧
      (∀ m cid, (m, cid) ∈ room.participants →
        ((handleEndRoom h k c).2.countP
          (fun s => decide (s.1 = m) && isRoomEnded s.2)) = 1 ∧
        (m, OutMsg.roomEnded c.rid room.hostCID "host_ended") ∈ (handleEndRoom h k c).2)) := by
  constructor
  · intro hh
    unfold handleEndRoom
    rw [if_neg hrne, hroom]
    dsimp only
    rw [if_pos hh]
  · intro hh
    have hshape : handleEndRoom h k c =
        ({ h with rooms := mupd h.rooms c.rid none },
          room.participants.map (fun p => (p.1, OutMsg.roomEnded c.rid c.cid "host_ended")) ++
          broadcastRoomStatusUpdate { h with rooms := mupd h.rooms c.rid none } c.rid) := by
      unfold handleEndRoom
      rw [if_neg hrne, hroom]
      dsimp only
      rw [if_neg (by simpa using hh)]
    refine ⟨?_, ?_⟩
    · rw [hshape]
      dsimp only
      exact mupd_self _ _ _
    · intro m cid hmm
      constructor
      · rw [hshape]
        dsimp only
        rw [List.countP_append]
        rw [countP_roomEnded_map_one (hw.partNodup c.rid room hroom) hmm
          (show isRoomEnded (OutMsg.roomEnded c.rid c.cid "host_ended") = true from rfl)]
        rw [countP_statusUpdate_zero]
        intro s hs
        rw [broadcastRoomStatusUpdate] at hs
        obtain ⟨w, _, hw2⟩ := List.mem_map.mp hs
        rw [← hw2]
        rfl
      · rw [hshape]
        dsimp only
        refine List.mem_append.mpr (Or.inl ?_)
        rw [hh]
        exact List.mem_map.mpr ⟨(m, cid), hmm, rfl⟩

/-- C4: a join to a room that already has 2 participants, none matching the
supplied `reconnectCid`, replies `error ROOM_FULL` to the joiner, leaves the
hub (so the room's participants and host) unchanged, does not add the
session to the room, and emits no `room_state` to anyone. -/
theorem C4_room_full_rejected {vr : String → RidCheck} {h : Hub} {k : Nat} {c : ClientSt}
    {rid : String} {reconnect : Option Nat} {room : Room}
    (hrne : rid ≠ "") (hvr : vr rid = .ok) (hroom : h.rooms rid = some room)
    (hfull : room.participants.length = 2)
    (hng : ∀ p ∈ room.participants, reconnect ≠ some p.2)
    (hknp : ∀ p ∈ room.participants, p.1 ≠ k) :
    handleJoin vr h k c rid reconnect = (h, [(k, OutMsg.errorMsg rid "ROOM_FULL")]) ∧
    ((handleJoin vr h k c rid reconnect).1.rooms rid = some room ∧
      ∀ p ∈ room.participants, p.1 ≠ k) ∧
    (∀ s, s ∈ (handleJoin vr h k c rid reconnect).2 → isRoomState s.2 = false) := by
  have hng' : ∀ rc, reconnect = some rc →
      room.participants.find? (fun p => decide (p.2 = rc)) = none := by
    intro rc hrc
    refine find?_cid_none ?_
    intro p hp hq
    exact hng p hp (by rw [hrc, hq])
  refine ⟨handleJoin_noghost_full hrne hvr hroom hng' (by omega), ?_, ?_⟩
  · rw [handleJoin_noghost_full hrne hvr hroom hng' (by omega)]
    exact ⟨hroom, hknp⟩
  · rw [handleJoin_noghost_full hrne hvr hroom hng' (by omega)]
    intro s hs
    dsimp only at hs
    rcases List.mem_cons.mp hs with he | hnil
    · rw [he]
      rfl
    · cases hnil

theorem jlookup_map_replace {k : String} {v : Jval} :
    ∀ {fs : List (String × Jval)}, (∃ q ∈ fs, q.1 = k) →
      jlookup k (fs.map (fun p => if p.1 = k then (k, v) else p)) = some v
  | [], h => absurd h (by simp)
  | p :: rest, h => by
    rw [List.map_cons]
    by_cases hp : p.1 = k
    · rw [if_pos hp]
      simp [jlookup]
    · rw [if_neg hp]
      simp only [jlookup]
      rw [if_neg hp]
      refine jlookup_map_replace ?_
      rcases h with ⟨q, hq, hqk⟩
      rcases List.mem_cons.mp hq with he | hm
      · rw [he] at hqk
        exact absurd hqk hp
      · exact ⟨q, hm, hqk⟩

theorem jlookup_append_missing {k : String} {v : Jval} :
    ∀ {fs : List (String × Jval)}, (∀ q ∈ fs, q.1 ≠ k) →
      jlookup k (fs ++ [(k, v)]) = some v
  | [], _ => by simp [jlookup]
  | p :: rest, h => by
    rw [List.cons_append]
    simp only [jlookup]
    rw [if_neg (h p (List.mem_cons_self p rest))]
    exact jlookup_append_missing (fun q hq => h q (List.mem_cons_of_mem p hq))

theorem jlookup_jset (fs : List (String × Jval)) (k : String) (v : Jval) :
    jlookup k (jset fs k v) = some v := by
  unfold jset
  by_cases ha : fs.any (fun p => decide (p.1 = k)) = true
  · rw [if_pos ha]
    refine jlookup_map_replace ?_
    simpa using ha
  · rw [if_neg ha]
    refine jlookup_append_missing ?_
    intro q hq hqk
    simp only [List.any_eq_true, decide_eq_true_eq, not_exists] at ha
    exact absurd ⟨hq, hqk⟩ (ha q)

theorem mem_relayTargets {parts : List (Nat × Nat)} {senderCid toCid : Option Nat}
    {p : Nat × Nat} :
    p ∈ relayTargets parts senderCid toCid ↔
      p ∈ parts ∧ some p.2 ≠ senderCid ∧ (toCid = none ∨ toCid = some p.2) := by
  unfold relayTargets
  rw [List.mem_filter]
  cases toCid with
  | none => simp
  | some t =>
    simp only [Bool.and_eq_true, decide_eq_true_eq]
    constructor
    · rintro ⟨hm, hne, ht⟩
      exact ⟨hm, hne, Or.inr (by rw [ht])⟩
    · rintro ⟨hm, hne, h | h⟩
      · cases h
      · exact ⟨hm, hne, (Option.some.inj h)⟩

theorem relayObj_isSome {pl : RPayload} (h : pl ≠ RPayload.val Jval.jnull) :
    ∃ fs, relayObj pl = some fs := by
  cases pl with
  | missing => exact ⟨[], rfl⟩
  | bad => exact ⟨[], rfl⟩
  | val v =>
    cases v with
    | jnull => exact absurd rfl h
    | jbool b => exact ⟨[], rfl⟩
    | jnum n => exact ⟨[], rfl⟩
    | jstr s => exact ⟨[], rfl⟩
    | jarr l => exact ⟨[], rfl⟩
    | jobj fs => exact ⟨fs, rfl⟩

theorem handleRelay_noRid {h : Hub} {k : Nat} {c : ClientSt} {kind : RelayKind}
    {toCid : Option Nat} {pl : RPayload} {msgRid : String} (hre : c.rid = "") :
    handleRelay h k c kind toCid pl msgRid = some (h, []) := by
  unfold handleRelay
  rw [if_pos hre]

theorem handleRelay_noRoom {h : Hub} {k : Nat} {c : ClientSt} {kind : RelayKind}
    {toCid : Option Nat} {pl : RPayload} {msgRid : String}
    (hrne : c.rid ≠ "") (hroom : h.rooms c.rid = none) :
    handleRelay h k c kind toCid pl msgRid = some (h, []) := by
  unfold handleRelay
  rw [if_neg hrne, hroom]

theorem handleRelay_notMember {h : Hub} {k : Nat} {c : ClientSt} {kind : RelayKind}
    {toCid : Option Nat} {pl : RPayload} {msgRid : String} {room : Room}
    (hrne : c.rid ≠ "") (hroom : h.rooms c.rid = some room)
    (hnp : plookup k room.participants = none) :
    handleRelay h k c kind toCid pl msgRid = some (h, []) := by
  unfold handleRelay
  rw [if_neg hrne, hroom]
  dsimp only
  rw [if_pos (by rw [hnp]; rfl)]

theorem handleRelay_forward {h : Hub} {k : Nat} {c : ClientSt} {kind : RelayKind}
    {toCid : Option Nat} {pl : RPayload} {msgRid : String} {room : Room}
    {myCid : Nat} {fs0 : List (String × Jval)}
    (hrne : c.rid ≠ "") (hroom : h.rooms c.rid = some room)
    (hmem : plookup k room.participants = some myCid)
    (hobj : relayObj pl = some fs0) :
    handleRelay h k c kind toCid pl msgRid =
      some (h, (relayTargets room.participants c.cid toCid).map
        (fun p => (p.1, OutMsg.relayed kind msgRid
          (jset fs0 "from" (Jval.jstr (optCidStr c.cid)))))) := by
  unfold handleRelay
  rw [if_neg hrne, hroom]
  dsimp only
  rw [if_neg (by rw [hmem]; simp)]
  rw [hobj]

/-- C5 (amended): for a relayed `offer`/`answer`/`ice` whose payload is not
JSON `null` (which panics instead — see the counterexample): a sender with
no current room, an unregistered rid, or no membership in its room is
dropped silently with no emission and no state change; otherwise the hub is
unchanged and the message is forwarded with payload field `from` set to the
sender's cid, delivered exactly to the other participants — the one whose
cid is `to` when `to` is present, all others when absent — and never back
to the sender. -/
theorem C5_relay_forwarding {h : Hub} {k : Nat} {c : ClientSt} {kind : RelayKind}
    {toCid : Option Nat} {pl : RPayload} {msgRid : String}
    (hw : WF h) (hk : h.clients k = some c) (hpl : pl ≠ RPayload.val Jval.jnull) :
    (c.rid = "" → handleRelay h k c kind toCid pl msgRid = some (h, [])) ∧
    (h.rooms c.rid = none → handleRelay h k c kind toCid pl msgRid = some (h, [])) ∧
    (∀ room, h.rooms c.rid = some room → plookup k room.participants = none →
      handleRelay h k c kind toCid pl msgRid = some (h, [])) ∧
    (∀ room myCid, h.rooms c.rid = some room →
      plookup k room.participants = some myCid →
      ∃ fs tr, handleRelay h k c kind toCid pl msgRid = some (h, tr) ∧
        jlookup "from" fs = some (Jval.jstr (optCidStr c.cid)) ∧
        (∀ s ∈ tr, s.2 = OutMsg.relayed kind msgRid fs) ∧
        (∀ msg, (k, msg) ∉ tr) ∧
        (∀ m, (∃ msg, (m, msg) ∈ tr) ↔
          ∃ mc, (m, mc) ∈ room.participants ∧ some mc ≠ c.cid ∧
            (toCid = none ∨ toCid = some mc))) := by
  refine ⟨fun hre => handleRelay_noRid hre, ?_, ?_, ?_⟩
  · intro hroom
    by_cases hre : c.rid = ""
    · exact handleRelay_noRid hre
    · exact handleRelay_noRoom hre hroom
  · intro room hroom hnp
    have hrne : c.rid ≠ "" := fun he => by
      rw [he, hw.noEmptyRid] at hroom
      cases hroom
    exact handleRelay_notMember hrne hroom hnp
  · intro room myCid hroom hmem
    have hrne : c.rid ≠ "" := fun he => by
      rw [he, hw.noEmptyRid] at hroom
      cases hroom
    obtain ⟨fs0, hobj⟩ := relayObj_isSome hpl
    have hkm : (k, myCid) ∈ room.participants := mem_of_plookup hmem
    have hcc : c.cid = some myCid := by
      obtain ⟨c', hc', hcid, _⟩ := hw.partClient c.rid room hroom (k, myCid) hkm
      rw [hk] at hc'
      rw [Option.some.inj hc']
      exact hcid
    refine ⟨jset fs0 "from" (Jval.jstr (optCidStr c.cid)), _,
      handleRelay_forward hrne hroom hmem hobj, jlookup_jset fs0 "from" _, ?_, ?_, ?_⟩
    · intro s hs
      obtain ⟨p, _, hp2⟩ := List.mem_map.mp hs
      rw [← hp2]
    · intro msg hkk
      obtain ⟨p, hp1, hp2⟩ := List.mem_map.mp hkk
      obtain ⟨hpm, hpne, _⟩ := mem_relayTargets.mp hp1
      have hp1k : p.1 = k := congrArg Prod.fst hp2
      have hpp : (k, p.2) ∈ room.participants := by
        rw [← hp1k]
        exact hpm
      have : p.2 = myCid := eq_of_mem_keysNodup (hw.partNodup c.rid room hroom) hpp hkm
      rw [this, ← hcc] at hpne
      exact hpne rfl
    · intro m
      constructor
      · rintro ⟨msg, hmm⟩
        obtain ⟨p, hp1, hp2⟩ := List.mem_map.mp hmm
        obtain ⟨hpm, hpne, hpt⟩ := mem_relayTargets.mp hp1
        have hp1m : p.1 = m := congrArg Prod.fst hp2
        refine ⟨p.2, ?_, hpne, hpt⟩
        rw [← hp1m]
        exact hpm
      · rintro ⟨mc, hmm, hne, ht⟩
        refine ⟨OutMsg.relayed kind msgRid (jset fs0 "from" (Jval.jstr (optCidStr c.cid))), ?_⟩
        have hmt : (m, mc) ∈ relayTargets room.participants c.cid toCid :=
          mem_relayTargets.mpr ⟨hmm, hne, ht⟩
        exact List.mem_map.mpr ⟨(m, mc), hmt, rfl⟩

/-- C10: a relayed message from a current participant whose payload is not a
JSON object — invalid JSON, an array, a string, or a number — is still
forwarded to the other participants, but its payload is exactly the object
with the single field `from: <senderCid>`: the original content is
discarded rather than the message rejected. -/
theorem C10_nonobject_payload {h : Hub} {k : Nat} {c : ClientSt} {kind : RelayKind}
    {toCid : Option Nat} {pl : RPayload} {msgRid : String} {room : Room} {myCid : Nat}
    (hw : WF h) (hroom : h.rooms c.rid = some room)
    (hmem : plookup k room.participants = some myCid)
    (hpl : pl = RPayload.bad ∨ (∃ l, pl = RPayload.val (Jval.jarr l)) ∨
           (∃ s, pl = RPayload.val (Jval.jstr s)) ∨ (∃ n, pl = RPayload.val (Jval.jnum n))) :
    ∃ tr, handleRelay h k c kind toCid pl msgRid = some (h, tr) ∧
      (∀ s ∈ tr, s.2 = OutMsg.relayed kind msgRid [("from", Jval.jstr (optCidStr c.cid))]) ∧
      (∀ m mc, (m, mc) ∈ room.participants → some mc ≠ c.cid →
        (toCid = none ∨ toCid = some mc) →
        (m, OutMsg.relayed kind msgRid [("from", Jval.jstr (optCidStr c.cid))]) ∈ tr) := by
  have hobj : relayObj pl = some [] := by
    rcases hpl with h1 | ⟨l, h1⟩ | ⟨s, h1⟩ | ⟨n, h1⟩ <;> rw [h1] <;> rfl
  have hrne : c.rid ≠ "" := fun he => by
    rw [he, hw.noEmptyRid] at hroom
    cases hroom
  have hjs : jset [] "from" (Jval.jstr (optCidStr c.cid)) =
      [("from", Jval.jstr (optCidStr c.cid))] := rfl
  refine ⟨_, handleRelay_forward hrne hroom hmem hobj, ?_, ?_⟩
  · intro s hs
    obtain ⟨p, _, hp2⟩ := List.mem_map.mp hs
    rw [← hp2]
    rw [hjs]
  · intro m mc hmm hne ht
    have hmt : (m, mc) ∈ relayTargets room.participants c.cid toCid :=
      mem_relayTargets.mpr ⟨hmm, hne, ht⟩
    have hin := List.mem_map_of_mem (fun p : Nat × Nat => (p.1, OutMsg.relayed kind msgRid
      (jset [] "from" (Jval.jstr (optCidStr c.cid))))) hmt
    rw [hjs] at hin
    exact hin

/-- C5 counterexample: at a reachable two-party room, a relay whose payload
is the JSON literal `null` panics (the nil-map write of
src/server/room_id.go:563) instead of being forwarded. -/
theorem C5_counterexample :
    execList vrOk hub0 opsPair = some hubPair ∧
    hubPair.clients 0 = some ⟨some 0, "R1"⟩ ∧
    (∃ room, hubPair.rooms "R1" = some room ∧ (0, 0) ∈ room.participants) ∧
    exec vrOk hubPair
      (Op.relay 0 RelayKind.offer none (RPayload.val Jval.jnull) "R1") = none :=
  ⟨rfl, rfl, ⟨⟨[(1, 1), (0, 0)], some 0⟩, rfl, by simp⟩, rfl⟩

/-- C6: a join carrying a `reconnectCid` that matches a current participant
of the target room evicts that ghost — its membership is removed and its
cid/rid cleared — admits the joining session under the reused cid, and
preserves the room's `hostCID`; no capacity hypothesis is needed, so this
holds for a full room of 2 participants as well. -/
theorem C6_ghost_eviction_reuses_cid {vr : String → RidCheck} {h : Hub} {k : Nat}
    {c : ClientSt} {rid : String} {rc : Nat} {g : Nat × Nat} {room : Room}
    (hw : WF h) (hk : h.clients k = some c)
    (hrne : rid ≠ "") (hvr : vr rid = .ok) (hr : h.rooms rid = some room)
    (hfind : room.participants.find? (fun p => decide (p.2 = rc)) = some g)
    (hgk : g.1 ≠ k) :
    ∃ room',
      (handleJoin vr h k c rid (some rc)).1.rooms rid = some room' ∧
      (handleJoin vr h k c rid (some rc)).1.clients g.1 = some ⟨none, ""⟩ ∧
      (handleJoin vr h k c rid (some rc)).1.clients k = some ⟨some rc, rid⟩ ∧
      (k, rc) ∈ room'.participants ∧
      (∀ p ∈ room'.participants, p.1 ≠ g.1) ∧
      room'.hostCID = room.hostCID := by
  obtain ⟨hgm, hgrc⟩ := find?_cid_some hfind
  have hgm' : (g.1, g.2) ∈ room.participants := by simpa using hgm
  have hlt : (pdel g.1 room.participants).length < 2 := by
    have h1 := length_pdel_lt hgm'
    have h2 := hw.partLe2 rid room hr
    omega
  rw [handleJoin_ghost hrne hvr hr rfl hfind hlt]
  obtain ⟨ph, hph, hhm⟩ := hw.hostMem rid room hr
  obtain ⟨gc, hgc, _, _⟩ := hw.partClient rid room hr g hgm
  unfold joinInsert
  dsimp only
  rw [joinCid_reuse]
  refine ⟨_, mupd_self _ _ _, ?_, ?_, ?_, ?_, ?_⟩
  · show clientUpd (clientUpd h.clients g.1 ⟨none, ""⟩) k ⟨some rc, rid⟩ g.1 =
      some ⟨none, ""⟩
    simp [clientUpd, hgk, hgc]
  · show clientUpd (clientUpd h.clients g.1 ⟨none, ""⟩) k ⟨some rc, rid⟩ k =
      some ⟨some rc, rid⟩
    simp [clientUpd, Ne.symm hgk, hk]
  · exact List.mem_cons_self _ _
  · intro p hp
    rcases List.mem_cons.mp hp with he | hm
    · intro hq
      rw [he] at hq
      exact hgk hq.symm
    · exact (mem_pdel.mp (mem_pdel.mp hm).1).2
  · show (match room.hostCID with | none => some rc | some x => some x) = room.hostCID
    rw [hhm]

/-- C7 (amended): a `leave` of an in-room session whose room is registered
returns it to the fresh state (no rid, no cid), and a disconnect removes its
record entirely; but an `end_room` by the host deletes the room while
leaving every member's record untouched, so members keep a stale rid and
cid (the choice the source documents at src/server/room_id.go:497-503). -/
theorem C7_leave_disconnect_reset_end_room_stale {h : Hub} {k : Nat} {c : ClientSt}
    {room : Room}
    (hk : h.clients k = some c) (hrne : c.rid ≠ "") (hroom : h.rooms c.rid = some room) :
    (handleLeave h k c).1.clients k = some ⟨none, ""⟩ ∧
    (disconnectClient h k).1.clients k = none ∧
    (room.hostCID = c.cid →
      (handleEndRoom h k c).1.rooms c.rid = none ∧
      (handleEndRoom h k c).1.clients = h.clients) := by
  refine ⟨?_, ?_, ?_⟩
  · unfold handleLeave
    rw [if_neg hrne]
    unfold removeClientFromRoom
    rw [hroom]
    dsimp only
    split
    · dsimp only
      simp [clientUpd, hk]
    · dsimp only
      simp [clientUpd, hk]
  · unfold disconnectClient
    rw [hk]
    dsimp only
    rw [if_pos hrne]
    unfold removeClientFromRoom
    dsimp only
    rw [hroom]
    dsimp only
    split
    · dsimp only
      simp [clientUpd]
    · dsimp only
      simp [clientUpd]
  · intro hh
    unfold handleEndRoom
    rw [if_neg hrne, hroom]
    dsimp only
    rw [if_neg (by simpa using hh)]
    exact ⟨mupd_self _ _ _, rfl⟩

/-- C7 counterexample: after a host ends its room, the room is gone from the
registry but the host's session still carries its cid and rid — not the
fresh state the claim requires. -/
theorem C7_end_room_leaves_stale_session :
    execList vrOk hub0 opsEnd = some hubEnd ∧
    hubEnd.rooms "R1" = none ∧
    hubEnd.clients 0 = some ⟨some 0, "R1"⟩ :=
  ⟨rfl, rfl, rfl⟩

/-- C3 applied to the host of the concrete two-party room. -/
theorem C3_witness :
    (handleEndRoom hubPair 0 ⟨some 0, "R1"⟩).1.rooms "R1" = none ∧
    ((handleEndRoom hubPair 0 ⟨some 0, "R1"⟩).2.countP
      (fun s => decide (s.1 = 1) && isRoomEnded s.2)) = 1 ∧
    (1, OutMsg.roomEnded "R1" (some 0) "host_ended") ∈
      (handleEndRoom hubPair 0 ⟨some 0, "R1"⟩).2 := by
  have hw : WF hubPair := WF_execList opsPair hub0 hubPair WF_hub0 rfl
  have h := (C3_end_room_host_only hw
    (show hubPair.clients 0 = some ⟨some 0, "R1"⟩ from rfl)
    (show ("R1" : String) ≠ "" from by decide)
    (show hubPair.rooms "R1" = some ⟨[(1, 1), (0, 0)], some 0⟩ from rfl)).2 rfl
  exact ⟨h.1, (h.2 1 1 (by simp)).1, (h.2 1 1 (by simp)).2⟩

/-- C4 applied to a third session joining the concrete full room. -/
theorem C4_witness :
    handleJoin vrOk hubC4 2 ⟨none, ""⟩ "R1" none =
      (hubC4, [(2, OutMsg.errorMsg "R1" "ROOM_FULL")]) ∧
    ((handleJoin vrOk hubC4 2 ⟨none, ""⟩ "R1" none).1.rooms "R1" =
        some ⟨[(1, 1), (0, 0)], some 0⟩ ∧
      ∀ p ∈ ([(1, 1), (0, 0)] : List (Nat × Nat)), p.1 ≠ 2) ∧
    (∀ s, s ∈ (handleJoin vrOk hubC4 2 ⟨none, ""⟩ "R1" none).2 →
      isRoomState s.2 = false) :=
  C4_room_full_rejected
    (show ("R1" : String) ≠ "" from by decide)
    (show vrOk "R1" = RidCheck.ok from rfl)
    (show hubC4.rooms "R1" = some ⟨[(1, 1), (0, 0)], some 0⟩ from rfl)
    (by decide)
    (by decide)
    (by decide)

/-- C6 applied to a third session reconnecting into the concrete full room
with participant 1's cid. -/
theorem C6_witness :
    ∃ room',
      (handleJoin vrOk hubC4 2 ⟨none, ""⟩ "R1" (some 1)).1.rooms "R1" = some room' ∧
      (handleJoin vrOk hubC4 2 ⟨none, ""⟩ "R1" (some 1)).1.clients 1 = some ⟨none, ""⟩ ∧
      (handleJoin vrOk hubC4 2 ⟨none, ""⟩ "R1" (some 1)).1.clients 2 =
        some ⟨some 1, "R1"⟩ ∧
      (2, 1) ∈ room'.participants ∧
      (∀ p ∈ room'.participants, p.1 ≠ 1) ∧
      room'.hostCID = some 0 :=
  C6_ghost_eviction_reuses_cid
    (WF_execList opsC4 hub0 hubC4 WF_hub0 rfl)
    (show hubC4.clients 2 = some ⟨none, ""⟩ from rfl)
    (show ("R1" : String) ≠ "" from by decide)
    (show vrOk "R1" = RidCheck.ok from rfl)
    (show hubC4.rooms "R1" = some ⟨[(1, 1), (0, 0)], some 0⟩ from rfl)
    (show ([(1, 1), (0, 0)] : List (Nat × Nat)).find?
      (fun p => decide (p.2 = 1)) = some (1, 1) from rfl)
    (by decide)

/-- C7 applied to the host of the concrete two-party room. -/
theorem C7_witness :
    (handleLeave hubPair 0 ⟨some 0, "R1"⟩).1.clients 0 = some ⟨none, ""⟩ ∧
    (disconnectClient hubPair 0).1.clients 0 = none ∧
    ((⟨[(1, 1), (0, 0)], some 0⟩ : Room).hostCID = (⟨some 0, "R1"⟩ : ClientSt).cid →
      (handleEndRoom hubPair 0 ⟨some 0, "R1"⟩).1.rooms "R1" = none ∧
      (handleEndRoom hubPair 0 ⟨some 0, "R1"⟩).1.clients = hubPair.clients) :=
  C7_leave_disconnect_reset_end_room_stale
    (show hubPair.clients 0 = some ⟨some 0, "R1"⟩ from rfl)
    (show ("R1" : String) ≠ "" from by decide)
    (show hubPair.rooms "R1" = some ⟨[(1, 1), (0, 0)], some 0⟩ from rfl)

/-- C5 applied to a participant of the concrete two-party room with an
invalid-JSON payload. -/
theorem C5_witness :
    ((⟨some 0, "R1"⟩ : ClientSt).rid = "" →
      handleRelay hubPair 0 ⟨some 0, "R1"⟩ RelayKind.offer none RPayload.bad "R1" =
        some (hubPair, [])) ∧
    (hubPair.rooms "R1" = none →
      handleRelay hubPair 0 ⟨some 0, "R1"⟩ RelayKind.offer none RPayload.bad "R1" =
        some (hubPair, [])) ∧
    (∀ room, hubPair.rooms "R1" = some room → plookup 0 room.participants = none →
      handleRelay hubPair 0 ⟨some 0, "R1"⟩ RelayKind.offer none RPayload.bad "R1" =
        some (hubPair, [])) ∧
    (∀ room myCid, hubPair.rooms "R1" = some room →
      plookup 0 room.participants = some myCid →
      ∃ fs tr, handleRelay hubPair 0 ⟨some 0, "R1"⟩ RelayKind.offer none RPayload.bad "R1" =
          some (hubPair, tr) ∧
        jlookup "from" fs = some (Jval.jstr (optCidStr (some 0))) ∧
        (∀ s ∈ tr, s.2 = OutMsg.relayed RelayKind.offer "R1" fs) ∧
        (∀ msg, (0, msg) ∉ tr) ∧
        (∀ m, (∃ msg, (m, msg) ∈ tr) ↔
          ∃ mc, (m, mc) ∈ room.participants ∧ some mc ≠ some 0 ∧
            ((none : Option Nat) = none ∨ none = some mc))) :=
  C5_relay_forwarding
    (WF_execList opsPair hub0 hubPair WF_hub0 rfl)
    (show hubPair.clients 0 = some ⟨some 0, "R1"⟩ from rfl)
    (by simp)

/-- C10 applied to a participant of the concrete two-party room with a
string payload. -/
theorem C10_witness :
    ∃ tr, handleRelay hubPair 0 ⟨some 0, "R1"⟩ RelayKind.ice none
        (RPayload.val (Jval.jstr "x")) "R1" = some (hubPair, tr) ∧
      (∀ s ∈ tr, s.2 = OutMsg.relayed RelayKind.ice "R1"
        [("from", Jval.jstr (optCidStr (some 0)))]) ∧
      (∀ m mc, (m, mc) ∈ ([(1, 1), (0, 0)] : List (Nat × Nat)) → some mc ≠ some 0 →
        ((none : Option Nat) = none ∨ none = some mc) →
        (m, OutMsg.relayed RelayKind.ice "R1"
          [("from", Jval.jstr (optCidStr (some 0)))]) ∈ tr) :=
  @C10_nonobject_payload hubPair 0 ⟨some 0, "R1"⟩ RelayKind.ice none
    (RPayload.val (Jval.jstr "x")) "R1" ⟨[(1, 1), (0, 0)], some 0⟩ 0
    (WF_execList opsPair hub0 hubPair WF_hub0 rfl)
    rfl
    rfl
    (Or.inr (Or.inr (Or.inl ⟨"x", rfl⟩)))

/-- C2 applied to the toy MAC and concrete random bytes: the minted token,
computed, and its acceptance. -/
theorem C2_witness :
    generateRoomID macToy secretToy ctxToy randomToy = Except.ok r1tok ∧
    validateRoomID macToy secretToy ctxToy r1tok = Except.ok () := by
  obtain ⟨tok, h1, _, _, _, h5, _, _, _, _⟩ :=
    C2_room_id_mint_and_validate macToy secretToy ctxToy randomToy
      (by decide) (by decide) (by decide) (by decide) (by decide)
  have h0 : generateRoomID macToy secretToy ctxToy randomToy = Except.ok r1tok := rfl
  have he : tok = r1tok := by
    rw [h1] at h0
    exact (Except.ok.inj h0)
  rw [he] at h1 h5
  exact ⟨h1, h5⟩

theorem wadd_mem_mono {f : String → List Nat} {rid' : String} {k w : Nat} {x : String}
    (h : w ∈ f x) : w ∈ wadd f rid' k x := by
  unfold wadd
  by_cases hx : x = rid'
  · rw [if_pos hx]
    rw [hx] at h
    by_cases hk : k ∈ f rid'
    · rw [if_pos hk]
      exact h
    · rw [if_neg hk]
      exact List.mem_append_left _ h
  · rw [if_neg hx]
    exact h

theorem wadd_self_mem (f : String → List Nat) (rid : String) (k : Nat) :
    k ∈ wadd f rid k rid := by
  unfold wadd
  rw [if_pos rfl]
  by_cases hk : k ∈ f rid
  · rw [if_pos hk]
    exact hk
  · rw [if_neg hk]
    exact List.mem_append_right _ (List.mem_singleton.mpr rfl)

theorem wadd_ne {f : String → List Nat} {rid' x : String} (k : Nat) (hx : x ≠ rid') :
    wadd f rid' k x = f x := by
  unfold wadd
  rw [if_neg hx]

theorem slookup_map_replace {k : String} {v : Nat} :
    ∀ {l : List (String × Nat)}, (∃ q ∈ l, q.1 = k) →
      slookup k (l.map (fun p => if p.1 = k then (k, v) else p)) = some v
  | [], h => absurd h (by simp)
  | p :: rest, h => by
    rw [List.map_cons]
    by_cases hp : p.1 = k
    · rw [if_pos hp]
      simp [slookup]
    · rw [if_neg hp]
      simp only [slookup]
      rw [if_neg hp]
      refine slookup_map_replace ?_
      rcases h with ⟨q, hq, hqk⟩
      rcases List.mem_cons.mp hq with he | hm
      · rw [he] at hqk
        exact absurd hqk hp
      · exact ⟨q, hm, hqk⟩

theorem slookup_append_missing {k : String} {v : Nat} :
    ∀ {l : List (String × Nat)}, (∀ q ∈ l, q.1 ≠ k) →
      slookup k (l ++ [(k, v)]) = some v
  | [], _ => by simp [slookup]
  | p :: rest, h => by
    rw [List.cons_append]
    simp only [slookup]
    rw [if_neg (h p (List.mem_cons_self p rest))]
    exact slookup_append_missing (fun q hq => h q (List.mem_cons_of_mem p hq))

theorem slookup_sset_self (l : List (String × Nat)) (k : String) (v : Nat) :
    slookup k (sset l k v) = some v := by
  unfold sset
  by_cases ha : l.any (fun p => decide (p.1 = k)) = true
  · rw [if_pos ha]
    refine slookup_map_replace ?_
    simpa using ha
  · rw [if_neg ha]
    refine slookup_append_missing ?_
    intro q hq hqk
    simp only [List.any_eq_true, decide_eq_true_eq, not_exists] at ha
    exact absurd ⟨hq, hqk⟩ (ha q)

theorem slookup_map_replace_ne {k x : String} {v : Nat} (hx : x ≠ k) :
    ∀ (l : List (String × Nat)),
      slookup x (l.map (fun p => if p.1 = k then (k, v) else p)) = slookup x l
  | [] => rfl
  | p :: rest => by
    rw [List.map_cons]
    by_cases hp : p.1 = k
    · rw [if_pos hp]
      simp only [slookup]
      rw [if_neg (show ¬ ((k, v).1 = x) from fun q => hx q.symm)]
      rw [if_neg (show ¬ (p.1 = x) from fun q => hx (q ▸ hp))]
      exact slookup_map_replace_ne hx rest
    · rw [if_neg hp]
      simp only [slookup]
      by_cases hpx : p.1 = x
      · rw [if_pos hpx, if_pos hpx]
      · rw [if_neg hpx, if_neg hpx]
        exact slookup_map_replace_ne hx rest

theorem slookup_append_ne {x k : String} {v : Nat} (hx : x ≠ k) :
    ∀ (l : List (String × Nat)), slookup x (l ++ [(k, v)]) = slookup x l
  | [] => by
    simp only [List.nil_append, slookup]
    rw [if_neg (show ¬ ((k, v).1 = x) from fun q => hx q.symm)]
  | p :: rest => by
    rw [List.cons_append]
    simp only [slookup]
    by_cases hpx : p.1 = x
    · rw [if_pos hpx, if_pos hpx]
    · rw [if_neg hpx, if_neg hpx]
      exact slookup_append_ne hx rest

theorem slookup_sset_ne (l : List (String × Nat)) {k x : String} (v : Nat) (hx : x ≠ k) :
    slookup x (sset l k v) = slookup x l := by
  unfold sset
  by_cases ha : l.any (fun p => decide (p.1 = k)) = true
  · rw [if_pos ha]
    exact slookup_map_replace_ne hx l
  · rw [if_neg ha]
    exact slookup_append_ne hx l

theorem watchStep_ok {vr : String → RidCheck} {k : Nat} {acc : Hub × List (String × Nat)}
    {rid : String} (hv : vr rid = RidCheck.ok) :
    watchStep vr k acc rid =
      ({ acc.1 with watchers := wadd acc.1.watchers rid k },
        sset acc.2 rid (countIn acc.1 rid)) := by
  unfold watchStep
  rw [if_pos hv]
  rfl

theorem watchStep_skip {vr : String → RidCheck} {k : Nat} {acc : Hub × List (String × Nat)}
    {rid : String} (hv : ¬ vr rid = RidCheck.ok) :
    watchStep vr k acc rid = acc := by
  unfold watchStep
  rw [if_neg hv]

theorem watch_foldl_spec (vr : String → RidCheck) (k : Nat) :
    ∀ (rids : List String) (acc : Hub × List (String × Nat)),
      (∀ w rid, w ∈ acc.1.watchers rid →
        w ∈ (rids.foldl (watchStep vr k) acc).1.watchers rid) ∧
      (∀ rid, vr rid = RidCheck.ok → rid ∈ rids →
        k ∈ (rids.foldl (watchStep vr k) acc).1.watchers rid ∧
        slookup rid (rids.foldl (watchStep vr k) acc).2 = some (countIn acc.1 rid)) ∧
      (∀ rid, vr rid ≠ RidCheck.ok ∨ rid ∉ rids →
        (rids.foldl (watchStep vr k) acc).1.watchers rid = acc.1.watchers rid) ∧
      (∀ rid, vr rid ≠ RidCheck.ok ∨ rid ∉ rids →
        slookup rid (rids.foldl (watchStep vr k) acc).2 = slookup rid acc.2) := by
  intro rids
  induction rids with
  | nil =>
    intro acc
    exact ⟨fun w rid h => h, fun rid _ hm => absurd hm (List.not_mem_nil rid),
      fun _ _ => rfl, fun _ _ => rfl⟩
  | cons r rest ih =>
    intro acc
    rw [List.foldl_cons]
    by_cases hv : vr r = RidCheck.ok
    · rw [watchStep_ok hv]
      set acc1 : Hub × List (String × Nat) :=
        ({ acc.1 with watchers := wadd acc.1.watchers r k },
          sset acc.2 r (countIn acc.1 r)) with hacc1
      refine ⟨?_, ?_, ?_, ?_⟩
      · intro w rid hmem
        refine (ih acc1).1 w rid ?_
        exact wadd_mem_mono hmem
      · intro rid hvr hm
        by_cases hr : rid ∈ rest
        · have h2 := (ih acc1).2.1 rid hvr hr
          exact ⟨h2.1, h2.2⟩
        · have hre : rid = r := by
            rcases List.mem_cons.mp hm with he | hm'
            · exact he
            · exact absurd hm' hr
          subst hre
          constructor
          · exact (ih acc1).1 k rid (wadd_self_mem acc.1.watchers rid k)
          · rw [(ih acc1).2.2.2 rid (Or.inr hr)]
            exact slookup_sset_self acc.2 rid (countIn acc.1 rid)
      · intro rid hcase
        have hne : rid ≠ r := by
          rcases hcase with hq | hq
          · intro he
            rw [he] at hq
            exact hq hv
          · intro he
            exact hq (he ▸ List.mem_cons_self r rest)
        have hrest : vr rid ≠ RidCheck.ok ∨ rid ∉ rest := by
          rcases hcase with hq | hq
          · exact Or.inl hq
          · exact Or.inr (fun hm => hq (List.mem_cons_of_mem r hm))
        rw [(ih acc1).2.2.1 rid hrest]
        exact wadd_ne k hne
      · intro rid hcase
        have hne : rid ≠ r := by
          rcases hcase with hq | hq
          · intro he
            rw [he] at hq
            exact hq hv
          · intro he
            exact hq (he ▸ List.mem_cons_self r rest)
        have hrest : vr rid ≠ RidCheck.ok ∨ rid ∉ rest := by
          rcases hcase with hq | hq
          · exact Or.inl hq
          · exact Or.inr (fun hm => hq (List.mem_cons_of_mem r hm))
        rw [(ih acc1).2.2.2 rid hrest]
        exact slookup_sset_ne acc.2 (countIn acc.1 r) hne
    · rw [watchStep_skip hv]
      refine ⟨(ih acc).1, ?_, ?_, ?_⟩
      · intro rid hvr hm
        have hr : rid ∈ rest := by
          rcases List.mem_cons.mp hm with he | hm'
          · rw [he] at hvr
            exact absurd hvr hv
          · exact hm'
        exact (ih acc).2.1 rid hvr hr
      · intro rid hcase
        refine (ih acc).2.2.1 rid ?_
        rcases hcase with hq | hq
        · exact Or.inl hq
        · exact Or.inr (fun hm => hq (List.mem_cons_of_mem r hm))
      · intro rid hcase
        refine (ih acc).2.2.2 rid ?_
        rcases hcase with hq | hq
        · exact Or.inl hq
        · exact Or.inr (fun hm => hq (List.mem_cons_of_mem r hm))

/-- C8 (amended): `watch_rooms` sends exactly one `room_statuses` reply and
touches no room or client state; every supplied rid that validates is
mapped in the reply to its current participant count (0 when the room is
absent from the registry) and gains the sender as a watcher; a rid that
fails validation is skipped silently from both — it is absent from the
reply rather than mapped to 0, and its watcher set is untouched. -/
theorem C8_watch_rooms_statuses (vr : String → RidCheck) (h : Hub) (k : Nat)
    (rids : List String) :
    ∃ h' st, handleWatchRooms vr h k rids = (h', [(k, OutMsg.roomStatuses st)]) ∧
      h'.rooms = h.rooms ∧ h'.clients = h.clients ∧
      (∀ rid, rid ∈ rids → vr rid = RidCheck.ok →
        k ∈ h'.watchers rid ∧ slookup rid st = some (countIn h rid)) ∧
      (∀ rid, vr rid ≠ RidCheck.ok →
        slookup rid st = none ∧ h'.watchers rid = h.watchers rid) := by
  unfold handleWatchRooms
  refine ⟨(rids.foldl (watchStep vr k) (h, [])).1,
    (rids.foldl (watchStep vr k) (h, [])).2, rfl,
    (watch_foldl_fields vr k rids (h, [])).1,
    (watch_foldl_fields vr k rids (h, [])).2.1, ?_, ?_⟩
  · intro rid hm hvr
    exact (watch_foldl_spec vr k rids (h, [])).2.1 rid hvr hm
  · intro rid hvr
    refine ⟨?_, (watch_foldl_spec vr k rids (h, [])).2.2.1 rid (Or.inl hvr)⟩
    rw [(watch_foldl_spec vr k rids (h, [])).2.2.2 rid (Or.inl hvr)]
    rfl

/-- C8 counterexample: a supplied rid that fails validation is absent from
the `room_statuses` reply instead of being mapped to a 0 count. -/
theorem C8_invalid_rid_absent_from_reply :
    vrReal "bad" = RidCheck.invalidRid ∧
    handleWatchRooms vrReal hub0 5 ["bad"] = (hub0, [(5, OutMsg.roomStatuses [])]) :=
  ⟨rfl, rfl⟩

/-- C9: enqueueing onto a session's outbound queue appends the message when
fewer than 256 are queued, drops it when the queue already holds 256, and
leaves every other session's queue unchanged. -/
theorem C9_enqueue_nonblocking (qs : Nat → List OutMsg) (k : Nat) (m : OutMsg) :
    ((qs k).length < 256 → enqueueTo qs k m k = qs k ++ [m]) ∧
    ((qs k).length = 256 → enqueueTo qs k m k = qs k) ∧
    (∀ x, x ≠ k → enqueueTo qs k m x = qs x) := by
  refine ⟨?_, ?_, ?_⟩
  · intro hlt
    unfold enqueueTo sendMessage
    rw [if_pos rfl, if_pos hlt]
  · intro heq
    unfold enqueueTo sendMessage
    rw [if_pos rfl, if_neg (by omega)]
  · intro x hx
    unfold enqueueTo
    rw [if_neg hx]

end Sig
